import Mathlib

/-!
LiveRequestManager

A shallow embedding of `src/server/utils/LiveRequestManager.js`: the dual
queue, the aging sweep, the dispatch loop of `processQueue` with its
suspension at `await requestObj.fn()`, and the adaptive cooldown.

Conventions of the embedding

* `Date.now()` is an explicit argument `now : Int` (milliseconds).
* `Math.random()` is an explicit argument: the id string drawn by
  `addRequest`, the jitter drawn by `calculateBackoffTime`.
* `cooldownMs`, `avgProcessingTime` and processing times are rationals
  (`1.5 = 3/2`, `0.9 = 9/10`, `0.8 = 4/5`, `0.2 = 1/5`).
* A work function is named by a number; calling it returns a promise, so
  `await requestObj.fn()` always suspends the calling `processQueue`.
* `emit` has no effect on the manager and is left out.
-/

namespace LiveRequestManager

/-- The error a work function rejects with; `response` is the HTTP status
of `error.response` when the error carries a response. -/
structure JsError where
  response : Option Nat
deriving DecidableEq, Repr

/-- The object `requestObj` built by `addRequest`. -/
structure Request where
  fn : Nat
  addedAt : Int
  startedAt : Option Int
  completedAt : Option Int
  metadata : Nat
  id : String
deriving DecidableEq, Repr

/-- The fields of a `LiveRequestManager` instance. -/
structure Manager where
  maxConcurrentRequests : Int
  activeRequests : Int
  totalProcessed : Nat
  totalFailed : Nat
  highPriorityQueue : List Request
  normalQueue : List Request
  cooldownMs : ℚ
  failureCount : Nat
  lastFailureTime : Int
  successCount : Nat
  lastSuccessTime : Int
  requestTimeoutMs : Int
  avgProcessingTime : ℚ
  isProcessing : Bool
deriving DecidableEq, Repr

/-- The constructor (`new LiveRequestManager(maxConcurrent)`). -/
def init (maxConcurrent : Int) : Manager :=
  { maxConcurrentRequests := maxConcurrent
    activeRequests := 0
    totalProcessed := 0
    totalFailed := 0
    highPriorityQueue := []
    normalQueue := []
    cooldownMs := 3000
    failureCount := 0
    lastFailureTime := 0
    successCount := 0
    lastSuccessTime := 0
    requestTimeoutMs := 5000
    avgProcessingTime := 0
    isProcessing := false }

/-- The test of the aging loop: `now - addedAt > requestTimeoutMs`. -/
def isAged (now thr : Int) (r : Request) : Bool :=
  decide (now - r.addedAt > thr)

/-- The `for` loop of `ageRequests`: `i` is the loop index, `nq` the normal
queue as spliced so far, `aged` the array `agedRequests`. A splice is
followed by `i--` and the loop's `i++`, so the index stays. -/
def ageLoop (now thr : Int) (i : Nat) (nq aged : List Request) :
    List Request × List Request :=
  if h : i < nq.length then
    if now - nq[i].addedAt > thr then
      ageLoop now thr i (nq.eraseIdx i) (aged ++ [nq[i]])
    else
      ageLoop now thr (i + 1) nq aged
  else (nq, aged)
termination_by nq.length - i
decreasing_by
  · simp_wf
    rw [List.length_eraseIdx]
    simp [h]
    omega
  · simp_wf
    omega

/-- The method `ageRequests`. -/
def ageRequests (now : Int) (m : Manager) : Manager :=
  let p := ageLoop now m.requestTimeoutMs 0 m.normalQueue []
  if p.2.length > 0 then
    { m with normalQueue := p.1, highPriorityQueue := m.highPriorityQueue ++ p.2 }
  else
    { m with normalQueue := p.1 }

/-- The method `getNextRequest`: the returned request (`none` for `null`)
and the manager after the call. -/
def getNextRequest (now : Int) (m : Manager) : Option Request × Manager :=
  let m1 := ageRequests now m
  match m1.highPriorityQueue with
  | r :: rest => (some r, { m1 with highPriorityQueue := rest })
  | [] =>
    match m1.normalQueue with
    | r :: rest => (some r, { m1 with normalQueue := rest })
    | [] => (none, m1)

/-- The method `isInCooldown`. -/
def isInCooldown (now : Int) (m : Manager) : Bool :=
  decide (m.failureCount > 0) && decide (((now - m.lastFailureTime : Int) : ℚ) < m.cooldownMs)

/-- The method `canProcessMore`. -/
def canProcessMore (now : Int) (m : Manager) : Bool :=
  decide (m.activeRequests < m.maxConcurrentRequests) &&
    !isInCooldown now m &&
    (decide (m.highPriorityQueue.length > 0) || decide (m.normalQueue.length > 0))

/-- The method `updateCooldownOnFailure`. -/
def updateCooldownOnFailure (now : Int) (m : Manager) : Manager :=
  let timeSinceLastFailure := now - m.lastFailureTime
  let m1 := if timeSinceLastFailure > 10000 then { m with failureCount := 0 } else m
  let m2 := { m1 with failureCount := m1.failureCount + 1, lastFailureTime := now }
  if m2.failureCount ≥ 2 then
    { m2 with cooldownMs := min (m2.cooldownMs * (if m2.failureCount < 5 then 3 / 2 else 2)) 30000 }
  else m2

/-- The method `updateSuccessMetrics`. -/
def updateSuccessMetrics (now : Int) (processingTime : ℚ) (m : Manager) : Manager :=
  let m1 := { m with successCount := m.successCount + 1, lastSuccessTime := now }
  let m2 := { m1 with avgProcessingTime :=
    if m1.avgProcessingTime ≠ 0 then 4 / 5 * m1.avgProcessingTime + 1 / 5 * processingTime
    else processingTime }
  if m2.successCount ≥ 3 ∧ now - m2.lastFailureTime > 15000 then
    { m2 with cooldownMs := max (m2.cooldownMs * (9 / 10)) 1000 }
  else m2

/-- The method `calculateBackoffTime`; `jitter` is `Math.random() * 1000`. -/
def calculateBackoffTime (jitter : ℚ) (m : Manager) : ℚ :=
  min m.cooldownMs 10000 + jitter

/-- A pending `setTimeout` of `handleRateLimitError`: when it is due and the
arguments of the `addRequest` it will make. -/
structure Timer where
  due : ℚ
  fn : Nat
  metadata : Nat
deriving DecidableEq, Repr

/-- The manager together with its environment: the clock, the requests whose
promise a suspended `processQueue` is awaiting, and the pending timers. -/
structure Sys where
  m : Manager
  now : Int
  executing : List Request
  timers : List Timer
deriving DecidableEq, Repr

/-- The state right after the constructor, at clock value `now`. -/
def Sys.init (maxConcurrent now : Int) : Sys :=
  { m := LiveRequestManager.init maxConcurrent, now := now, executing := [], timers := [] }

/-- One pass of `while (this.canProcessMore())` in `processQueue`, run until
the loop suspends at `await requestObj.fn()` (the request joins `executing`)
or leaves through the outer `finally` (`isProcessing = false`). -/
def loopHead (s : Sys) : Sys :=
  if canProcessMore s.now s.m then
    match getNextRequest s.now s.m with
    | (none, m1) => { s with m := { m1 with isProcessing := false } }
    | (some r, m1) =>
      { s with
        m := { m1 with activeRequests := m1.activeRequests + 1 }
        executing := s.executing ++ [{ r with startedAt := some s.now }] }
  else { s with m := { s.m with isProcessing := false } }

/-- The method `processQueue`, up to its first suspension. -/
def processQueue (s : Sys) : Sys :=
  if s.m.isProcessing || isInCooldown s.now s.m then s
  else loopHead { s with m := { s.m with isProcessing := true } }

/-- The queue insertion of `addRequest`: `unshift` for a priority request,
`push` otherwise. -/
def enqueue (r : Request) (priority : Bool) (m : Manager) : Manager :=
  if priority then { m with highPriorityQueue := r :: m.highPriorityQueue }
  else { m with normalQueue := m.normalQueue ++ [r] }

/-- The object `requestObj` of `addRequest`; `id` is the string drawn from
`Math.random()`. -/
def mkRequest (now : Int) (fn metadata : Nat) (id : String) : Request :=
  { fn := fn, addedAt := now, startedAt := none, completedAt := none,
    metadata := metadata, id := id }

/-- The method `addRequest`. -/
def addRequest (fn : Nat) (priority : Bool) (metadata : Nat) (id : String) (s : Sys) : Sys :=
  processQueue { s with m := enqueue (mkRequest s.now fn metadata id) priority s.m }

/-- The method `handleRateLimitError`: the cooldown update and the timer. -/
def handleRateLimitError (jitter : ℚ) (r : Request) (s : Sys) : Sys :=
  let m1 := updateCooldownOnFailure s.now s.m
  { s with
    m := m1
    timers := s.timers ++
      [{ due := (s.now : ℚ) + calculateBackoffTime jitter m1, fn := r.fn, metadata := r.metadata }] }

/-- The test `error.response && error.response.status === 429`. -/
def isRateLimit (e : JsError) : Bool :=
  e.response == some 429

/-- The `processQueue` awaiting the request at index `i` of `executing`
resumes with the promise fulfilled: the rest of the `try` block, the inner
`finally`, then the loop again. -/
def resumeSuccess (i : Nat) (processingTime : ℚ) (s : Sys) : Sys :=
  match s.executing.get? i with
  | none => s
  | some _ =>
    let m1 := updateSuccessMetrics s.now processingTime s.m
    let m2 := { m1 with totalProcessed := m1.totalProcessed + 1 }
    let m3 := { m2 with activeRequests := m2.activeRequests - 1 }
    loopHead { s with m := m3, executing := s.executing.eraseIdx i }

/-- The `processQueue` awaiting the request at index `i` of `executing`
resumes with the promise rejected with `e`: the `catch` block, the inner
`finally`, then the loop again. -/
def resumeFailure (i : Nat) (e : JsError) (jitter : ℚ) (s : Sys) : Sys :=
  match s.executing.get? i with
  | none => s
  | some r =>
    let s1 := { s with m := { s.m with totalFailed := s.m.totalFailed + 1 },
                       executing := s.executing.eraseIdx i }
    let s2 := if isRateLimit e then handleRateLimitError jitter r s1 else s1
    loopHead { s2 with m := { s2.m with activeRequests := s2.m.activeRequests - 1 } }

/-- The timer at index `i` fires (not before it is due): its callback calls
`addRequest(requestObj.fn, true, requestObj.metadata)`. -/
def fireTimer (i : Nat) (id : String) (s : Sys) : Sys :=
  match s.timers.get? i with
  | none => s
  | some t =>
    if t.due ≤ (s.now : ℚ) then
      addRequest t.fn true t.metadata id { s with timers := s.timers.eraseIdx i }
    else s

/-- The events that drive the manager. -/
inductive Event where
  | addRequest (fn : Nat) (priority : Bool) (metadata : Nat) (id : String)
  | processQueue
  | taskSuccess (i : Nat) (processingTime : ℚ)
  | taskFailure (i : Nat) (error : JsError) (jitter : ℚ)
  | timerFire (i : Nat) (id : String)
  | tick (d : Nat)

/-- The effect of one event. -/
def step (s : Sys) : Event → Sys
  | .addRequest fn priority metadata id => addRequest fn priority metadata id s
  | .processQueue => processQueue s
  | .taskSuccess i processingTime => resumeSuccess i processingTime s
  | .taskFailure i error jitter => resumeFailure i error jitter s
  | .timerFire i id => fireTimer i id s
  | .tick d => { s with now := s.now + d }

/-- The state after a sequence of events. -/
def run (s : Sys) (evs : List Event) : Sys :=
  evs.foldl step s

/-- The requests of the normal queue that the sweep at `now` promotes. -/
def agedOf (now : Int) (m : Manager) : List Request :=
  m.normalQueue.filter (isAged now m.requestTimeoutMs)

/-- The requests of the normal queue that the sweep at `now` leaves. -/
def freshOf (now : Int) (m : Manager) : List Request :=
  m.normalQueue.filter (fun r => !isAged now m.requestTimeoutMs r)

/-- One adaptive-control update: a rate-limit failure
(`updateCooldownOnFailure`) or a success (`updateSuccessMetrics`), at the time
`Date.now()` returns. -/
inductive CooldownOp where
  | failure (now : Int)
  | success (now : Int) (processingTime : ℚ)

/-- The effect of one adaptive-control update on the manager. -/
def applyOp (m : Manager) : CooldownOp → Manager
  | .failure now => updateCooldownOnFailure now m
  | .success now processingTime => updateSuccessMetrics now processingTime m

/-- The decay step of `updateSuccessMetrics`: `Math.max(cooldownMs * 0.9, 1000)`. -/
def decay (c : ℚ) : ℚ :=
  max (c * (9 / 10)) 1000

/-- The state in which `processQueue` leaves its loop: the outer `finally`
has reset `isProcessing`. -/
def exitLoop (s : Sys) : Sys :=
  { s with m := { s.m with isProcessing := false } }

/-- The state in which `processQueue` is suspended after taking `r` from the
queues, which are left as `hp` and `nq`. -/
def dispatchTo (s : Sys) (r : Request) (hp nq : List Request) : Sys :=
  { s with
    m := { s.m with highPriorityQueue := hp, normalQueue := nq,
                    activeRequests := s.m.activeRequests + 1 }
    executing := s.executing ++ [{ r with startedAt := some s.now }] }

/-- The bookkeeping of `processQueue`: `activeRequests` counts the awaited
requests, `isProcessing` is set exactly while one is awaited, at most one is
awaited, and one is awaited only under a positive `maxConcurrentRequests`. -/
def Serial (s : Sys) : Prop :=
  s.m.activeRequests = s.executing.length ∧
    (s.m.isProcessing = true ↔ s.executing ≠ []) ∧
    s.executing.length ≤ 1 ∧
    (s.executing ≠ [] → 1 ≤ s.m.maxConcurrentRequests)

/-- The ids of the requests that are queued or executing. -/
def residentIds (s : Sys) : List String :=
  (s.m.highPriorityQueue ++ s.m.normalQueue ++ s.executing).map Request.id

/-- The id an event draws from `Math.random()` is not the id of a request
that is queued or executing when it is drawn. -/
def drawsFreshId (s : Sys) : Event → Prop
  | .addRequest _ _ _ id => id ∉ residentIds s
  | .timerFire _ id => id ∉ residentIds s
  | _ => True

/-- Along a run every `addRequest` draws a fresh id. -/
def drawsFresh (s : Sys) : List Event → Prop
  | [] => True
  | ev :: evs => drawsFreshId s ev ∧ drawsFresh (step s ev) evs

/-- The object returned by `getQueuePosition`. -/
structure QueuePosition where
  position : Int
  queue : String
deriving DecidableEq, Repr

/-- The scan of `Array.prototype.findIndex`: the index of the first element
that satisfies `p`, counted from `i` for the head, and `-1` when there is
none. -/
def findIndexFrom (p : Request → Bool) : List Request → Int → Int
  | [], _ => -1
  | r :: rest, i => if p r then i else findIndexFrom p rest (i + 1)

/-- The call `array.findIndex(p)`. -/
def findIndex (p : Request → Bool) (l : List Request) : Int :=
  findIndexFrom p l 0

/-- The method `getQueuePosition` (`none` for `null`). -/
def getQueuePosition (requestId : String) (m : Manager) : Option QueuePosition :=
  let highPriorityPos := findIndex (fun r => r.id == requestId) m.highPriorityQueue
  if highPriorityPos ≥ 0 then
    some { position := highPriorityPos + 1, queue := "highPriority" }
  else
    let normalPos := findIndex (fun r => r.id == requestId) m.normalQueue
    if normalPos ≥ 0 then
      some { position := normalPos + 1 + m.highPriorityQueue.length, queue := "normal" }
    else none

/-- The method `getEstimatedWaitTime`. -/
def getEstimatedWaitTime (now : Int) (m : Manager) : ℚ :=
  let activeTime := (m.activeRequests : ℚ) * m.avgProcessingTime
  let queuedItems := m.highPriorityQueue.length + m.normalQueue.length
  let queueTime := (queuedItems : ℚ) * m.avgProcessingTime / (m.maxConcurrentRequests : ℚ)
  activeTime + queueTime + (if isInCooldown now m then m.cooldownMs else 0)

/-- Index `i` is the first index of `l` at which the request has id
`requestId`. -/
def IsFirstIndex (requestId : String) (l : List Request) (i : Nat) : Prop :=
  (l.map Request.id)[i]? = some requestId ∧
    ∀ k, k < i → (l.map Request.id)[k]? ≠ some requestId

/-- Every processing time measured in a run (`performance.now() - startTime`)
is non-negative. -/
def nonnegTimes (evs : List Event) : Prop :=
  ∀ ev ∈ evs, match ev with
    | .taskSuccess _ processingTime => 0 ≤ processingTime
    | _ => True

/-- What `axios.post` settles with in `translateText`: fulfilled, with the
text found at `response.data?.candidates?.[0]?.content?.parts?.[0]?.text`
(`none` when the path is missing), or rejected with the axios error, whose
`response` holds the HTTP status the backend answered with. -/
inductive AxiosResult where
  | fulfilled (text : Option String)
  | rejected (error : JsError)

/-- The function `translateText` of `geminiService.js`. Each
`throw new Error(...)` makes a fresh `Error`, which has no `response`. -/
def translateText (text targetLang : String) (backend : AxiosResult) : Except JsError String :=
  if text.isEmpty || targetLang.isEmpty then
    .error { response := none }
  else
    match backend with
    | .fulfilled none => .error { response := none }
    | .fulfilled (some t) => if t.isEmpty then .error { response := none } else .ok t.trim
    | .rejected _ => .error { response := none }

/-- The work function `requestFunction` of `server.js`: it awaits
`translateText` and rethrows the error it catches. -/
def requestFunction (text targetLang : String) (backend : AxiosResult) : Except JsError Unit :=
  match translateText text targetLang backend with
  | .ok _ => .ok ()
  | .error error => .error error

/-- The promise of `requestObj.fn()` awaited at index `i` settles with
`outcome`: `processQueue` resumes in its `try` or in its `catch`. -/
def settle (i : Nat) (outcome : Except JsError Unit) (processingTime jitter : ℚ) (s : Sys) : Sys :=
  match outcome with
  | .ok _ => resumeSuccess i processingTime s
  | .error error => resumeFailure i error jitter s

/-! ## The aging sweep -/

theorem ageLoop_eq (now thr : Int) (i : Nat) (nq aged : List Request) :
    ageLoop now thr i nq aged =
      (nq.take i ++ (nq.drop i).filter (fun r => !isAged now thr r),
        aged ++ (nq.drop i).filter (isAged now thr)) := by
  induction i, nq, aged using ageLoop.induct now thr with
  | case1 i nq aged h hag ih =>
    rw [ageLoop, dif_pos h, if_pos hag, ih]
    have hd : nq.drop i = nq[i] :: nq.drop (i + 1) := List.drop_eq_getElem_cons h
    have he : (nq.eraseIdx i).drop i = nq.drop (i + 1) := by
      rw [List.eraseIdx_eq_take_drop_succ]
      rw [List.drop_append_of_le_length (by simp; omega)]
      simp [List.drop_take]
    have ht : (nq.eraseIdx i).take i = nq.take i := by
      rw [List.eraseIdx_eq_take_drop_succ]
      rw [List.take_append_of_le_length (by simp; omega)]
      simp [List.take_take]
    have hA : isAged now thr nq[i] = true := by simpa [isAged] using hag
    rw [he, ht, hd, List.filter_cons, List.filter_cons]
    simp [hA]
  | case2 i nq aged h hag ih =>
    rw [ageLoop, dif_pos h, if_neg hag, ih]
    have hd : nq.drop i = nq[i] :: nq.drop (i + 1) := List.drop_eq_getElem_cons h
    have hA : isAged now thr nq[i] = false := by simpa [isAged] using hag
    have ht : nq.take (i + 1) = nq.take i ++ [nq[i]] := by
      rw [List.take_succ, List.getElem?_eq_getElem h]
      rfl
    rw [hd, List.filter_cons, List.filter_cons, hA, ht]
    simp only [Bool.not_false, if_true, Bool.false_eq_true, if_false, List.append_assoc,
      List.singleton_append]
  | case3 i nq aged h =>
    rw [ageLoop, dif_neg h]
    have : nq.length ≤ i := by omega
    rw [List.drop_eq_nil_of_le this, List.take_of_length_le this]
    simp

theorem ageRequests_eq (now : Int) (m : Manager) :
    ageRequests now m =
      { m with normalQueue := freshOf now m
               highPriorityQueue := m.highPriorityQueue ++ agedOf now m } := by
  unfold ageRequests
  simp only [ageLoop_eq, List.take_zero, List.drop_zero, List.nil_append]
  split
  · rfl
  · next h =>
    have h0 : List.filter (isAged now m.requestTimeoutMs) m.normalQueue = [] := by
      apply List.eq_nil_of_length_eq_zero
      omega
    simp [agedOf, freshOf, h0]

theorem getNextRequest_eq (now : Int) (m : Manager) :
    getNextRequest now m =
      match m.highPriorityQueue ++ agedOf now m with
      | r :: rest =>
        (some r, { m with normalQueue := freshOf now m, highPriorityQueue := rest })
      | [] =>
        match freshOf now m with
        | r :: rest =>
          (some r, { m with normalQueue := rest, highPriorityQueue := [] })
        | [] => (none, { m with normalQueue := [], highPriorityQueue := [] }) := by
  unfold getNextRequest
  simp only [ageRequests_eq]
  cases h1 : m.highPriorityQueue ++ agedOf now m with
  | cons r rest => rfl
  | nil =>
    cases h2 : freshOf now m with
    | cons r rest => rfl
    | nil => rfl

theorem filter_split_nil {α : Type} (p : α → Bool) (l : List α)
    (h1 : l.filter p = []) (h2 : l.filter (fun a => !p a) = []) : l = [] := by
  cases l with
  | nil => rfl
  | cons a t =>
    cases hp : p a
    · simp [List.filter_cons, hp] at h2
    · simp [List.filter_cons, hp] at h1

/-- C5. The aging sweep is an order-preserving partition of the normal
queue: the requests with `now - addedAt <= requestTimeoutMs` stay, in order,
the others are appended in order behind the requests already in the high
priority queue; together the two queues hold the same requests as before, and
no other field changes. -/
theorem ageRequests_partition (now : Int) (m : Manager) :
    (ageRequests now m).normalQueue =
        m.normalQueue.filter (fun r => decide (now - r.addedAt ≤ m.requestTimeoutMs)) ∧
      (ageRequests now m).highPriorityQueue =
        m.highPriorityQueue ++
          m.normalQueue.filter (fun r => decide (now - r.addedAt > m.requestTimeoutMs)) ∧
      List.Perm ((ageRequests now m).highPriorityQueue ++ (ageRequests now m).normalQueue)
        (m.highPriorityQueue ++ m.normalQueue) ∧
      ageRequests now m =
        { m with normalQueue := (ageRequests now m).normalQueue
                 highPriorityQueue := (ageRequests now m).highPriorityQueue } := by
  have hf : freshOf now m =
      m.normalQueue.filter (fun r => decide (now - r.addedAt ≤ m.requestTimeoutMs)) := by
    unfold freshOf
    congr 1
    funext r
    by_cases h : now - r.addedAt > m.requestTimeoutMs
    · have h2 : ¬ now - r.addedAt ≤ m.requestTimeoutMs := by omega
      simp only [isAged, h, h2, decide_True, decide_False, Bool.not_true]
    · have h2 : now - r.addedAt ≤ m.requestTimeoutMs := by omega
      simp only [isAged, h, h2, decide_True, decide_False, Bool.not_false]
  have ha : agedOf now m =
      m.normalQueue.filter (fun r => decide (now - r.addedAt > m.requestTimeoutMs)) := rfl
  rw [ageRequests_eq]
  refine ⟨hf, by rw [← ha], ?_, rfl⟩
  simp only [List.append_assoc]
  apply List.Perm.append_left
  exact List.filter_append_perm _ _

/-- C3. Priority precedence of `getNextRequest`: when the high priority queue
is non-empty after the sweep the returned request is its front and the normal
queue is left as the sweep left it; the normal queue is popped only when the
high priority queue is empty after the sweep; a high priority queue that is
non-empty on entry yields its own front and the normal queue loses only aged
requests; `null` is returned exactly when both queues are empty on entry. -/
theorem getNextRequest_priority (now : Int) (m : Manager) :
    ((ageRequests now m).highPriorityQueue ≠ [] →
        (getNextRequest now m).1 = (ageRequests now m).highPriorityQueue.head? ∧
        (getNextRequest now m).2.highPriorityQueue = (ageRequests now m).highPriorityQueue.tail ∧
        (getNextRequest now m).2.normalQueue = (ageRequests now m).normalQueue) ∧
      ((getNextRequest now m).2.normalQueue ≠ (ageRequests now m).normalQueue →
        (ageRequests now m).highPriorityQueue = [] ∧
        (getNextRequest now m).1 = (ageRequests now m).normalQueue.head? ∧
        (getNextRequest now m).2.normalQueue = (ageRequests now m).normalQueue.tail) ∧
      (∀ r rest, m.highPriorityQueue = r :: rest →
        (getNextRequest now m).1 = some r ∧
        (getNextRequest now m).2.highPriorityQueue =
          rest ++ m.normalQueue.filter (fun q => decide (now - q.addedAt > m.requestTimeoutMs)) ∧
        (getNextRequest now m).2.normalQueue =
          m.normalQueue.filter (fun q => !decide (now - q.addedAt > m.requestTimeoutMs))) ∧
      ((getNextRequest now m).1 = none ↔ m.highPriorityQueue = [] ∧ m.normalQueue = []) := by
  rw [getNextRequest_eq, ageRequests_eq]
  refine ⟨?_, ?_, ?_, ?_⟩
  · intro h
    cases h1 : m.highPriorityQueue ++ agedOf now m with
    | nil => exact absurd h1 h
    | cons r rest => simp
  · intro h
    cases h1 : m.highPriorityQueue ++ agedOf now m with
    | cons r rest => simp [h1] at h
    | nil =>
      cases h2 : freshOf now m with
      | nil => simp [h1, h2] at h
      | cons r rest => simp
  · intro r rest h
    have ha : agedOf now m =
        m.normalQueue.filter (fun q => decide (now - q.addedAt > m.requestTimeoutMs)) := rfl
    have hf : freshOf now m =
        m.normalQueue.filter (fun q => !decide (now - q.addedAt > m.requestTimeoutMs)) := rfl
    rw [h, ← ha, ← hf]
    simp
  · cases h1 : m.highPriorityQueue ++ agedOf now m with
    | cons r rest =>
      simp only [false_iff, not_and, reduceCtorEq]
      intro hh hn
      simp [hh, hn, agedOf] at h1
    | nil =>
      cases h2 : freshOf now m with
      | cons r rest =>
        simp only [false_iff, not_and, reduceCtorEq]
        intro _ hn
        simp [hn, freshOf] at h2
      | nil =>
        simp only [true_iff]
        have h3 := List.append_eq_nil.mp h1
        exact ⟨h3.1, filter_split_nil _ _ h3.2 h2⟩

/-! ## An aged request and a later priority submission -/

/-- C4, as stated, fails. Request `a` is submitted at time 0 behind a running
request and waits in the normal queue; at time 6000 the priority request `b`
is submitted; at the next dispatch decision `b` is dispatched while `a`, now
promoted, is still waiting in the high priority queue. -/
theorem aged_request_waits_behind_priority :
    (run (Sys.init 3 0)
        [.addRequest 0 false 0 "x", .addRequest 1 false 0 "a", .tick 6000]).m.normalQueue =
        [mkRequest 0 1 0 "a"] ∧
      (run (Sys.init 3 0)
        [.addRequest 0 false 0 "x", .addRequest 1 false 0 "a", .tick 6000,
          .addRequest 2 true 0 "b", .taskSuccess 0 100]).executing =
        [{ mkRequest 6000 2 0 "b" with startedAt := some 6000 }] ∧
      (run (Sys.init 3 0)
        [.addRequest 0 false 0 "x", .addRequest 1 false 0 "a", .tick 6000,
          .addRequest 2 true 0 "b", .taskSuccess 0 100]).m.highPriorityQueue =
        [mkRequest 0 1 0 "a"] := by
  simp [run, step, Sys.init, init, addRequest, processQueue, loopHead, canProcessMore,
    isInCooldown, getNextRequest_eq, agedOf, freshOf, isAged, enqueue, mkRequest, resumeSuccess,
    updateSuccessMetrics]

/-- C4, amended. When request `A` has been in the normal queue for more than
`requestTimeoutMs` at time `t0` and a priority request is submitted at `t0`,
the next dispatch decision, at any time `now >= t0`, returns the priority
request; `A` is promoted by that sweep and stays queued in the high priority
queue, behind it. -/
theorem priority_submission_precedes_aged (m : Manager) (t0 now : Int) (A : Request)
    (fn metadata : Nat) (id : String)
    (hA : A ∈ m.normalQueue) (hold : t0 - A.addedAt > m.requestTimeoutMs) (ht : t0 ≤ now) :
    (getNextRequest now (enqueue (mkRequest t0 fn metadata id) true m)).1 =
        some (mkRequest t0 fn metadata id) ∧
      A ∈ (getNextRequest now (enqueue (mkRequest t0 fn metadata id) true m)).2.highPriorityQueue ∧
      A ∉ (getNextRequest now (enqueue (mkRequest t0 fn metadata id) true m)).2.normalQueue := by
  have hag : isAged now m.requestTimeoutMs A = true := by
    simp only [isAged, decide_eq_true_eq]
    omega
  rw [getNextRequest_eq]
  simp only [enqueue, if_true, agedOf, freshOf, List.cons_append]
  refine ⟨trivial, ?_, ?_⟩
  · apply List.mem_append_right
    exact List.mem_filter.mpr ⟨hA, hag⟩
  · intro hmem
    have := (List.mem_filter.mp hmem).2
    simp [hag] at this

theorem priority_submission_precedes_aged_witness :
    (getNextRequest 7000
        (enqueue (mkRequest 6000 2 0 "b") true
          { init 3 with normalQueue := [mkRequest 0 1 0 "a"] })).1 =
        some (mkRequest 6000 2 0 "b") ∧
      mkRequest 0 1 0 "a" ∈ (getNextRequest 7000
        (enqueue (mkRequest 6000 2 0 "b") true
          { init 3 with normalQueue := [mkRequest 0 1 0 "a"] })).2.highPriorityQueue ∧
      mkRequest 0 1 0 "a" ∉ (getNextRequest 7000
        (enqueue (mkRequest 6000 2 0 "b") true
          { init 3 with normalQueue := [mkRequest 0 1 0 "a"] })).2.normalQueue :=
  priority_submission_precedes_aged { init 3 with normalQueue := [mkRequest 0 1 0 "a"] }
    6000 7000 (mkRequest 0 1 0 "a") 2 0 "b" (by simp) (by simp [mkRequest, init]) (by decide)

/-! ## Cooldown growth -/

theorem updateCooldownOnFailure_failureCount (now : Int) (m : Manager) :
    (updateCooldownOnFailure now m).failureCount =
      (if now - m.lastFailureTime > 10000 then 0 else m.failureCount) + 1 := by
  unfold updateCooldownOnFailure
  by_cases h : now - m.lastFailureTime > 10000 <;> simp only [h, if_true, if_false] <;>
    split <;> rfl

theorem updateCooldownOnFailure_cooldownMs (now : Int) (m : Manager) :
    (updateCooldownOnFailure now m).cooldownMs =
      if (updateCooldownOnFailure now m).failureCount ≥ 2 then
        min (m.cooldownMs *
          (if (updateCooldownOnFailure now m).failureCount < 5 then 3 / 2 else 2)) 30000
      else m.cooldownMs := by
  rw [updateCooldownOnFailure_failureCount]
  unfold updateCooldownOnFailure
  by_cases h : now - m.lastFailureTime > 10000 <;> simp only [h, if_true, if_false] <;>
    split <;> rfl

/-- C8, as stated, fails. On the constructor's state (`cooldownMs = 3000`) a
rate-limit failure at time 20000 makes `failureCount = 1` and leaves
`cooldownMs` at 3000: it is neither `min(3000 * 1.5, 30000) = 4500` nor larger
than before. The same holds when the failure arrives through `processQueue`. -/
theorem first_failure_keeps_cooldown :
    (updateCooldownOnFailure 20000 (init 3)).failureCount = 1 ∧
      (updateCooldownOnFailure 20000 (init 3)).cooldownMs = 3000 ∧
      (updateCooldownOnFailure 20000 (init 3)).cooldownMs ≠
        min ((init 3).cooldownMs * (3 / 2)) 30000 ∧
      ¬ (init 3).cooldownMs < (updateCooldownOnFailure 20000 (init 3)).cooldownMs ∧
      (run (Sys.init 3 0)
        [.addRequest 0 false 0 "x", .tick 20000,
          .taskFailure 0 { response := some 429 } 0]).m.cooldownMs = 3000 := by
  refine ⟨?_, ?_, ?_, ?_, ?_⟩
  · simp [updateCooldownOnFailure, init]
  · simp [updateCooldownOnFailure, init]
  · simp [updateCooldownOnFailure, init]
    norm_num
  · simp [updateCooldownOnFailure, init]
  · simp [run, step, Sys.init, init, addRequest, processQueue, loopHead, canProcessMore,
      isInCooldown, getNextRequest_eq, agedOf, freshOf, isAged, enqueue, mkRequest,
      resumeFailure, isRateLimit, handleRateLimitError, updateCooldownOnFailure]

/-- C8, amended. A rate-limit failure resets `failureCount` to 0 when
`now - lastFailureTime > 10000`, then increments it and sets
`lastFailureTime = now`; only when the updated `failureCount` is at least 2
does it set `cooldownMs = min(c * m, 30000)`, with `m = 1.5` for an updated
count below 5 and `m = 2` otherwise, and in that case `cooldownMs` strictly
increases whenever `0 < c < 30000`; on the first failure of a streak
`cooldownMs` is unchanged. `handleRateLimitError` applies exactly this update
to the manager. -/
theorem updateCooldownOnFailure_growth (now : Int) (m : Manager) :
    (updateCooldownOnFailure now m).failureCount =
        (if now - m.lastFailureTime > 10000 then 0 else m.failureCount) + 1 ∧
      (updateCooldownOnFailure now m).lastFailureTime = now ∧
      ((updateCooldownOnFailure now m).failureCount ≥ 2 →
        (updateCooldownOnFailure now m).cooldownMs =
          min (m.cooldownMs *
            (if (updateCooldownOnFailure now m).failureCount < 5 then 3 / 2 else 2)) 30000) ∧
      ((updateCooldownOnFailure now m).failureCount < 2 →
        (updateCooldownOnFailure now m).cooldownMs = m.cooldownMs) ∧
      ((updateCooldownOnFailure now m).failureCount ≥ 2 → 0 < m.cooldownMs →
        m.cooldownMs < 30000 → m.cooldownMs < (updateCooldownOnFailure now m).cooldownMs) ∧
      (∀ (jitter : ℚ) (r : Request) (s : Sys),
        (handleRateLimitError jitter r s).m = updateCooldownOnFailure s.now s.m) := by
  refine ⟨updateCooldownOnFailure_failureCount now m, ?_, ?_, ?_, ?_, ?_⟩
  · unfold updateCooldownOnFailure
    by_cases h : now - m.lastFailureTime > 10000 <;> simp only [h, if_true, if_false] <;>
      split <;> rfl
  · intro h
    rw [updateCooldownOnFailure_cooldownMs, if_pos h]
  · intro h
    rw [updateCooldownOnFailure_cooldownMs, if_neg (by omega)]
  · intro h hpos hlt
    rw [updateCooldownOnFailure_cooldownMs, if_pos h]
    apply lt_min _ hlt
    split <;> linarith
  · intro jitter r s
    rfl

/-! ## Cooldown decay -/

theorem updateSuccessMetrics_successCount (now : Int) (p : ℚ) (m : Manager) :
    (updateSuccessMetrics now p m).successCount = m.successCount + 1 := by
  unfold updateSuccessMetrics
  simp only
  split <;> rfl

theorem updateSuccessMetrics_lastFailureTime (now : Int) (p : ℚ) (m : Manager) :
    (updateSuccessMetrics now p m).lastFailureTime = m.lastFailureTime := by
  unfold updateSuccessMetrics
  simp only
  split <;> rfl

theorem updateSuccessMetrics_cooldownMs (now : Int) (p : ℚ) (m : Manager) :
    (updateSuccessMetrics now p m).cooldownMs =
      if m.successCount + 1 ≥ 3 ∧ now - m.lastFailureTime > 15000 then decay m.cooldownMs
      else m.cooldownMs := by
  unfold updateSuccessMetrics
  simp only
  split <;> rfl

/-- C9, as stated, fails. Six requests succeed in a row at time 20000, with no
failure ever. After the first three `cooldownMs` is 2700; the next three
successes, again consecutive and more than 15000 ms after the last failure,
bring it to 1968.3 and not to `max(0.9 * 2700, 1000) = 2430`. -/
theorem three_more_successes_decay_thrice :
    (run (Sys.init 3 0)
        [.addRequest 0 false 0 "a", .addRequest 1 false 0 "b", .addRequest 2 false 0 "c",
          .addRequest 3 false 0 "d", .addRequest 4 false 0 "e", .addRequest 5 false 0 "f",
          .tick 20000, .taskSuccess 0 100, .taskSuccess 0 100,
          .taskSuccess 0 100]).m.cooldownMs = 2700 ∧
      (run (Sys.init 3 0)
        [.addRequest 0 false 0 "a", .addRequest 1 false 0 "b", .addRequest 2 false 0 "c",
          .addRequest 3 false 0 "d", .addRequest 4 false 0 "e", .addRequest 5 false 0 "f",
          .tick 20000, .taskSuccess 0 100, .taskSuccess 0 100, .taskSuccess 0 100,
          .taskSuccess 0 100, .taskSuccess 0 100, .taskSuccess 0 100]).m.cooldownMs =
        19683 / 10 ∧
      (19683 / 10 : ℚ) ≠ max (9 / 10 * 2700) 1000 := by
  refine ⟨?_, ?_, ?_⟩
  · simp [run, step, Sys.init, init, addRequest, processQueue, loopHead, canProcessMore,
      isInCooldown, getNextRequest_eq, agedOf, freshOf, isAged, enqueue, mkRequest,
      resumeSuccess, updateSuccessMetrics]
    norm_num
  · simp [run, step, Sys.init, init, addRequest, processQueue, loopHead, canProcessMore,
      isInCooldown, getNextRequest_eq, agedOf, freshOf, isAged, enqueue, mkRequest,
      resumeSuccess, updateSuccessMetrics]
    norm_num
  · norm_num

/-- C9, amended. `successCount` counts all successes since construction and
is never reset, and every success at which it has reached 3 and which comes
more than 15000 ms after the last failure decays `cooldownMs` once
(`max(0.9 * c, 1000)`). So three successes, each more than 15000 ms after the
last failure, reduce `cooldownMs` by exactly 10% (floored at 1000) when they
are the first three successes of the manager (`successCount = 0`); from
`successCount = 1` they decay it twice, from `successCount >= 2` three times. -/
theorem updateSuccessMetrics_three (m : Manager) (t1 t2 t3 : Int) (p1 p2 p3 : ℚ)
    (h1 : t1 - m.lastFailureTime > 15000) (h2 : t2 - m.lastFailureTime > 15000)
    (h3 : t3 - m.lastFailureTime > 15000) :
    (m.successCount = 0 →
        (updateSuccessMetrics t3 p3 (updateSuccessMetrics t2 p2
          (updateSuccessMetrics t1 p1 m))).cooldownMs = max (9 / 10 * m.cooldownMs) 1000) ∧
      (m.successCount = 1 →
        (updateSuccessMetrics t3 p3 (updateSuccessMetrics t2 p2
          (updateSuccessMetrics t1 p1 m))).cooldownMs = decay (decay m.cooldownMs)) ∧
      (m.successCount ≥ 2 →
        (updateSuccessMetrics t3 p3 (updateSuccessMetrics t2 p2
          (updateSuccessMetrics t1 p1 m))).cooldownMs = decay (decay (decay m.cooldownMs))) := by
  simp only [updateSuccessMetrics_cooldownMs, updateSuccessMetrics_successCount,
    updateSuccessMetrics_lastFailureTime]
  refine ⟨?_, ?_, ?_⟩
  · intro h0
    have e1 : ¬ (m.successCount + 1 ≥ 3 ∧ t1 - m.lastFailureTime > 15000) := by omega
    have e2 : ¬ (m.successCount + 1 + 1 ≥ 3 ∧ t2 - m.lastFailureTime > 15000) := by omega
    have e3 : m.successCount + 1 + 1 + 1 ≥ 3 ∧ t3 - m.lastFailureTime > 15000 := ⟨by omega, h3⟩
    rw [if_pos e3, if_neg e2, if_neg e1, decay, mul_comm]
  · intro h0
    have e1 : ¬ (m.successCount + 1 ≥ 3 ∧ t1 - m.lastFailureTime > 15000) := by omega
    have e2 : m.successCount + 1 + 1 ≥ 3 ∧ t2 - m.lastFailureTime > 15000 := ⟨by omega, h2⟩
    have e3 : m.successCount + 1 + 1 + 1 ≥ 3 ∧ t3 - m.lastFailureTime > 15000 := ⟨by omega, h3⟩
    rw [if_pos e3, if_pos e2, if_neg e1]
  · intro h0
    have e1 : m.successCount + 1 ≥ 3 ∧ t1 - m.lastFailureTime > 15000 := ⟨by omega, h1⟩
    have e2 : m.successCount + 1 + 1 ≥ 3 ∧ t2 - m.lastFailureTime > 15000 := ⟨by omega, h2⟩
    have e3 : m.successCount + 1 + 1 + 1 ≥ 3 ∧ t3 - m.lastFailureTime > 15000 := ⟨by omega, h3⟩
    rw [if_pos e3, if_pos e2, if_pos e1]

theorem updateSuccessMetrics_three_witness :
    (20000 : Int) - (init 3).lastFailureTime > 15000 ∧
      ((init 3).successCount = 0 →
        (updateSuccessMetrics 20002 7 (updateSuccessMetrics 20001 9
          (updateSuccessMetrics 20000 8 (init 3)))).cooldownMs =
          max (9 / 10 * (init 3).cooldownMs) 1000) :=
  ⟨by decide,
    (updateSuccessMetrics_three (init 3) 20000 20001 20002 8 9 7
      (by decide) (by decide) (by decide)).1⟩

/-! ## Cooldown bounds -/

theorem updateCooldownOnFailure_bounds (now : Int) (m : Manager)
    (h : 1000 ≤ m.cooldownMs ∧ m.cooldownMs ≤ 30000) :
    1000 ≤ (updateCooldownOnFailure now m).cooldownMs ∧
      (updateCooldownOnFailure now m).cooldownMs ≤ 30000 := by
  rw [updateCooldownOnFailure_cooldownMs]
  split
  · refine ⟨le_min ?_ (by norm_num), min_le_right _ _⟩
    split <;> linarith [h.1]
  · exact h

theorem updateSuccessMetrics_bounds (now : Int) (p : ℚ) (m : Manager)
    (h : 1000 ≤ m.cooldownMs ∧ m.cooldownMs ≤ 30000) :
    1000 ≤ (updateSuccessMetrics now p m).cooldownMs ∧
      (updateSuccessMetrics now p m).cooldownMs ≤ 30000 := by
  rw [updateSuccessMetrics_cooldownMs]
  split
  · refine ⟨le_max_right _ _, max_le ?_ (by norm_num)⟩
    linarith [h.1, h.2]
  · exact h

theorem applyOp_bounds (ops : List CooldownOp) (m : Manager)
    (h : 1000 ≤ m.cooldownMs ∧ m.cooldownMs ≤ 30000) :
    1000 ≤ (ops.foldl applyOp m).cooldownMs ∧ (ops.foldl applyOp m).cooldownMs ≤ 30000 := by
  induction ops generalizing m with
  | nil => exact h
  | cons op ops ih =>
    rw [List.foldl_cons]
    apply ih
    cases op with
    | failure now => exact updateCooldownOnFailure_bounds now m h
    | success now p => exact updateSuccessMetrics_bounds now p m h

/-! ## The dispatch loop -/

theorem canProcessMore_true (now : Int) (m : Manager) (h : canProcessMore now m = true) :
    m.activeRequests < m.maxConcurrentRequests ∧ isInCooldown now m = false ∧
      (m.highPriorityQueue ≠ [] ∨ m.normalQueue ≠ []) := by
  unfold canProcessMore at h
  simp only [Bool.and_eq_true, Bool.or_eq_true, decide_eq_true_eq, Bool.not_eq_true',
    gt_iff_lt, List.length_pos] at h
  exact ⟨h.1.1, h.1.2, h.2⟩

theorem aged_fresh_perm (now : Int) (m : Manager) :
    List.Perm (agedOf now m ++ freshOf now m) m.normalQueue :=
  List.filter_append_perm _ _

theorem loopHead_cases (s : Sys) :
    loopHead s = exitLoop s ∨
      (canProcessMore s.now s.m = true ∧
        ∃ r hp nq,
          List.Perm (r :: (hp ++ nq)) (s.m.highPriorityQueue ++ s.m.normalQueue) ∧
          loopHead s = dispatchTo s r hp nq) := by
  unfold loopHead
  by_cases hc : canProcessMore s.now s.m = true
  · rw [if_pos hc, getNextRequest_eq]
    have hperm := aged_fresh_perm s.now s.m
    cases h1 : s.m.highPriorityQueue ++ agedOf s.now s.m with
    | cons r rest =>
      right
      refine ⟨hc, r, rest, freshOf s.now s.m, ?_, rfl⟩
      have e1 : r :: (rest ++ freshOf s.now s.m) =
          s.m.highPriorityQueue ++ (agedOf s.now s.m ++ freshOf s.now s.m) := by
        rw [← List.append_assoc, h1]
        rfl
      rw [e1]
      exact List.Perm.append_left _ hperm
    | nil =>
      have h3 := List.append_eq_nil.mp h1
      cases h2 : freshOf s.now s.m with
      | cons r rest =>
        right
        refine ⟨hc, r, [], rest, ?_, rfl⟩
        have hp2 := hperm
        rw [h3.2, h2] at hp2
        rw [h3.1]
        exact hp2
      | nil =>
        left
        have hn : s.m.normalQueue = [] := by
          have := hperm
          rw [h3.2, h2] at this
          exact List.Perm.eq_nil this.symm
        have h4 := h3.1
        simp only [exitLoop]
        generalize s.m.highPriorityQueue = a at h4 ⊢
        generalize s.m.normalQueue = b at hn ⊢
        rw [h4, hn]
  · left
    rw [if_neg hc]
    rfl

theorem processQueue_cases (s : Sys) :
    processQueue s = s ∨
      (s.m.isProcessing = false ∧ isInCooldown s.now s.m = false ∧
        processQueue s = loopHead { s with m := { s.m with isProcessing := true } }) := by
  unfold processQueue
  by_cases h : (s.m.isProcessing || isInCooldown s.now s.m) = true
  · left
    rw [if_pos h]
  · right
    rw [if_neg h]
    simp only [Bool.or_eq_true, not_or, Bool.not_eq_true] at h
    exact ⟨h.1, h.2, rfl⟩

theorem loopHead_serial (s : Sys) (h1 : s.m.activeRequests = 0) (h2 : s.executing = [])
    (h3 : s.m.isProcessing = true) : Serial (loopHead s) := by
  rcases loopHead_cases s with h | ⟨hc, r, hp, nq, _, h⟩
  · rw [h]
    simp [Serial, exitLoop, h1, h2]
  · rw [h]
    have hlt := (canProcessMore_true _ _ hc).1
    simp only [Serial, dispatchTo, h1, h2, h3]
    refine ⟨by simp, by simp, by simp, ?_⟩
    intro _
    omega

theorem processQueue_serial (s : Sys) (h : Serial s) : Serial (processQueue s) := by
  rcases processQueue_cases s with he | ⟨hp, _, he⟩
  · rw [he]
    exact h
  · rw [he]
    obtain ⟨ha, hb, _, _⟩ := h
    have hex : s.executing = [] := by
      by_contra hne
      have := hb.mpr hne
      rw [hp] at this
      exact absurd this (by decide)
    apply loopHead_serial
    · show s.m.activeRequests = 0
      rw [ha, hex]
      rfl
    · exact hex
    · rfl

theorem enqueue_serial (s : Sys) (r : Request) (priority : Bool) (h : Serial s) :
    Serial { s with m := enqueue r priority s.m } := by
  unfold enqueue
  cases priority <;> exact h

theorem addRequest_serial (fn : Nat) (priority : Bool) (metadata : Nat) (id : String)
    (s : Sys) (h : Serial s) : Serial (addRequest fn priority metadata id s) := by
  unfold addRequest
  exact processQueue_serial _ (enqueue_serial s _ priority h)

theorem get?_serial (s : Sys) (h : Serial s) (i : Nat) (r : Request)
    (hr : s.executing.get? i = some r) :
    s.executing.eraseIdx i = [] ∧ s.m.activeRequests = 1 ∧ s.m.isProcessing = true := by
  obtain ⟨ha, hb, hc, _⟩ := h
  have hne : s.executing ≠ [] := by
    intro h0
    rw [h0] at hr
    simp at hr
  have hlen : s.executing.length = 1 := by
    have := List.length_pos.mpr hne
    omega
  have hi : i < s.executing.length := by
    rw [List.get?_eq_some] at hr
    exact hr.1
  refine ⟨?_, ?_, hb.mpr hne⟩
  · apply List.eq_nil_of_length_eq_zero
    rw [List.length_eraseIdx, if_pos hi, hlen]
  · rw [ha, hlen]
    rfl

theorem resumeSuccess_serial (i : Nat) (p : ℚ) (s : Sys) (h : Serial s) :
    Serial (resumeSuccess i p s) := by
  unfold resumeSuccess
  cases hr : s.executing.get? i with
  | none => exact h
  | some r =>
    obtain ⟨he, ha, hp⟩ := get?_serial s h i r hr
    apply loopHead_serial
    · show (updateSuccessMetrics s.now p s.m).activeRequests - 1 = 0
      have : (updateSuccessMetrics s.now p s.m).activeRequests = s.m.activeRequests := by
        unfold updateSuccessMetrics
        simp only
        split <;> rfl
      rw [this, ha]
      rfl
    · exact he
    · show (updateSuccessMetrics s.now p s.m).isProcessing = true
      have : (updateSuccessMetrics s.now p s.m).isProcessing = s.m.isProcessing := by
        unfold updateSuccessMetrics
        simp only
        split <;> rfl
      rw [this, hp]

theorem updateCooldownOnFailure_frame (now : Int) (m : Manager) :
    (updateCooldownOnFailure now m).activeRequests = m.activeRequests ∧
      (updateCooldownOnFailure now m).isProcessing = m.isProcessing ∧
      (updateCooldownOnFailure now m).maxConcurrentRequests = m.maxConcurrentRequests ∧
      (updateCooldownOnFailure now m).highPriorityQueue = m.highPriorityQueue ∧
      (updateCooldownOnFailure now m).normalQueue = m.normalQueue := by
  unfold updateCooldownOnFailure
  by_cases h : now - m.lastFailureTime > 10000 <;> simp only [h, if_true, if_false] <;>
    split <;> exact ⟨rfl, rfl, rfl, rfl, rfl⟩

theorem updateSuccessMetrics_frame (now : Int) (p : ℚ) (m : Manager) :
    (updateSuccessMetrics now p m).activeRequests = m.activeRequests ∧
      (updateSuccessMetrics now p m).isProcessing = m.isProcessing ∧
      (updateSuccessMetrics now p m).maxConcurrentRequests = m.maxConcurrentRequests ∧
      (updateSuccessMetrics now p m).highPriorityQueue = m.highPriorityQueue ∧
      (updateSuccessMetrics now p m).normalQueue = m.normalQueue := by
  unfold updateSuccessMetrics
  simp only
  split <;> exact ⟨rfl, rfl, rfl, rfl, rfl⟩

theorem resumeFailure_serial (i : Nat) (e : JsError) (jitter : ℚ) (s : Sys) (h : Serial s) :
    Serial (resumeFailure i e jitter s) := by
  unfold resumeFailure
  cases hr : s.executing.get? i with
  | none => exact h
  | some r =>
    obtain ⟨he, ha, hp⟩ := get?_serial s h i r hr
    have hf := updateCooldownOnFailure_frame s.now { s.m with totalFailed := s.m.totalFailed + 1 }
    cases hrl : isRateLimit e
    · simp only [Bool.false_eq_true, if_false]
      apply loopHead_serial
      · show s.m.activeRequests - 1 = 0
        rw [ha]
        rfl
      · exact he
      · exact hp
    · simp only [if_true]
      apply loopHead_serial
      · show (updateCooldownOnFailure s.now _).activeRequests - 1 = 0
        rw [hf.1]
        show s.m.activeRequests - 1 = 0
        rw [ha]
        rfl
      · exact he
      · show (updateCooldownOnFailure s.now _).isProcessing = true
        rw [hf.2.1]
        exact hp

theorem fireTimer_serial (i : Nat) (id : String) (s : Sys) (h : Serial s) :
    Serial (fireTimer i id s) := by
  unfold fireTimer
  cases s.timers.get? i with
  | none => exact h
  | some t =>
    simp only
    split
    · exact addRequest_serial _ _ _ _ _ h
    · exact h

theorem step_serial (s : Sys) (ev : Event) (h : Serial s) : Serial (step s ev) := by
  cases ev with
  | addRequest fn priority metadata id => exact addRequest_serial fn priority metadata id s h
  | processQueue => exact processQueue_serial s h
  | taskSuccess i p => exact resumeSuccess_serial i p s h
  | taskFailure i e jitter => exact resumeFailure_serial i e jitter s h
  | timerFire i id => exact fireTimer_serial i id s h
  | tick d => exact h

theorem run_serial (evs : List Event) (s : Sys) (h : Serial s) : Serial (run s evs) := by
  induction evs generalizing s with
  | nil => exact h
  | cons ev evs ih => exact ih (step s ev) (step_serial s ev h)

theorem loopHead_frame (s : Sys) :
    (loopHead s).m.maxConcurrentRequests = s.m.maxConcurrentRequests ∧
      (loopHead s).m.cooldownMs = s.m.cooldownMs ∧ (loopHead s).now = s.now := by
  rcases loopHead_cases s with h | ⟨_, r, hp, nq, _, h⟩ <;> rw [h] <;> exact ⟨rfl, rfl, rfl⟩

theorem processQueue_frame (s : Sys) :
    (processQueue s).m.maxConcurrentRequests = s.m.maxConcurrentRequests ∧
      (processQueue s).m.cooldownMs = s.m.cooldownMs ∧ (processQueue s).now = s.now := by
  rcases processQueue_cases s with h | ⟨_, _, h⟩
  · rw [h]
    exact ⟨rfl, rfl, rfl⟩
  · rw [h]
    exact loopHead_frame _

theorem addRequest_frame (fn : Nat) (priority : Bool) (metadata : Nat) (id : String) (s : Sys) :
    (addRequest fn priority metadata id s).m.maxConcurrentRequests = s.m.maxConcurrentRequests ∧
      (addRequest fn priority metadata id s).m.cooldownMs = s.m.cooldownMs ∧
      (addRequest fn priority metadata id s).now = s.now := by
  unfold addRequest
  have h := processQueue_frame
    { s with m := enqueue (mkRequest s.now fn metadata id) priority s.m }
  cases priority <;> exact h

theorem fireTimer_frame (i : Nat) (id : String) (s : Sys) :
    (fireTimer i id s).m.maxConcurrentRequests = s.m.maxConcurrentRequests ∧
      (fireTimer i id s).m.cooldownMs = s.m.cooldownMs ∧ (fireTimer i id s).now = s.now := by
  unfold fireTimer
  cases s.timers.get? i with
  | none => exact ⟨rfl, rfl, rfl⟩
  | some t =>
    simp only
    split
    · exact addRequest_frame _ _ _ _ _
    · exact ⟨rfl, rfl, rfl⟩

theorem resumeSuccess_frame (i : Nat) (p : ℚ) (s : Sys) :
    (resumeSuccess i p s).m.maxConcurrentRequests = s.m.maxConcurrentRequests ∧
      ((resumeSuccess i p s).m.cooldownMs = s.m.cooldownMs ∨
        (resumeSuccess i p s).m.cooldownMs = (updateSuccessMetrics s.now p s.m).cooldownMs) := by
  unfold resumeSuccess
  cases s.executing.get? i with
  | none => exact ⟨rfl, Or.inl rfl⟩
  | some r =>
    simp only
    refine ⟨?_, Or.inr ?_⟩
    · rw [(loopHead_frame _).1]
      exact (updateSuccessMetrics_frame s.now p s.m).2.2.1
    · rw [(loopHead_frame _).2.1]

theorem resumeFailure_frame (i : Nat) (e : JsError) (jitter : ℚ) (s : Sys) :
    (resumeFailure i e jitter s).m.maxConcurrentRequests = s.m.maxConcurrentRequests ∧
      ((resumeFailure i e jitter s).m.cooldownMs = s.m.cooldownMs ∨
        (resumeFailure i e jitter s).m.cooldownMs =
          (updateCooldownOnFailure s.now s.m).cooldownMs) := by
  unfold resumeFailure
  cases s.executing.get? i with
  | none => exact ⟨rfl, Or.inl rfl⟩
  | some r =>
    cases hrl : isRateLimit e
    · simp only [Bool.false_eq_true, if_false]
      refine ⟨?_, Or.inl ?_⟩
      · rw [(loopHead_frame _).1]
      · rw [(loopHead_frame _).2.1]
    · simp only [if_true]
      refine ⟨?_, Or.inr ?_⟩
      · rw [(loopHead_frame _).1]
        show (updateCooldownOnFailure s.now _).maxConcurrentRequests = _
        rw [(updateCooldownOnFailure_frame _ _).2.2.1]
      · rw [(loopHead_frame _).2.1]
        show (updateCooldownOnFailure s.now _).cooldownMs = _
        rw [updateCooldownOnFailure_cooldownMs, updateCooldownOnFailure_cooldownMs,
          updateCooldownOnFailure_failureCount, updateCooldownOnFailure_failureCount]

theorem step_maxConcurrentRequests (s : Sys) (ev : Event) :
    (step s ev).m.maxConcurrentRequests = s.m.maxConcurrentRequests := by
  cases ev with
  | addRequest fn priority metadata id => exact (addRequest_frame fn priority metadata id s).1
  | processQueue => exact (processQueue_frame s).1
  | taskSuccess i p => exact (resumeSuccess_frame i p s).1
  | taskFailure i e jitter => exact (resumeFailure_frame i e jitter s).1
  | timerFire i id => exact (fireTimer_frame i id s).1
  | tick d => rfl

theorem run_maxConcurrentRequests (evs : List Event) (s : Sys) :
    (run s evs).m.maxConcurrentRequests = s.m.maxConcurrentRequests := by
  induction evs generalizing s with
  | nil => rfl
  | cons ev evs ih => exact (ih (step s ev)).trans (step_maxConcurrentRequests s ev)

theorem step_bounds (s : Sys) (ev : Event)
    (h : 1000 ≤ s.m.cooldownMs ∧ s.m.cooldownMs ≤ 30000) :
    1000 ≤ (step s ev).m.cooldownMs ∧ (step s ev).m.cooldownMs ≤ 30000 := by
  cases ev with
  | addRequest fn priority metadata id =>
    simp only [step]
    rw [(addRequest_frame fn priority metadata id s).2.1]
    exact h
  | processQueue =>
    simp only [step]
    rw [(processQueue_frame s).2.1]
    exact h
  | taskSuccess i p =>
    simp only [step]
    rcases (resumeSuccess_frame i p s).2 with e | e <;> rw [e]
    · exact h
    · exact updateSuccessMetrics_bounds _ _ _ h
  | taskFailure i e jitter =>
    simp only [step]
    rcases (resumeFailure_frame i e jitter s).2 with e | e <;> rw [e]
    · exact h
    · exact updateCooldownOnFailure_bounds _ _ h
  | timerFire i id =>
    simp only [step]
    rw [(fireTimer_frame i id s).2.1]
    exact h
  | tick d => exact h

theorem run_bounds (evs : List Event) (s : Sys)
    (h : 1000 ≤ s.m.cooldownMs ∧ s.m.cooldownMs ≤ 30000) :
    1000 ≤ (run s evs).m.cooldownMs ∧ (run s evs).m.cooldownMs ≤ 30000 := by
  induction evs generalizing s with
  | nil => exact h
  | cons ev evs ih => exact ih (step s ev) (step_bounds s ev h)

theorem init_serial (maxConcurrent now : Int) : Serial (Sys.init maxConcurrent now) := by
  simp [Serial, Sys.init, init]

/-! ## Capacity -/

/-- C1. Capacity invariant: for `maxConcurrent >= 0`, every state reached
from the constructor's state by any sequence of events (`addRequest`,
`processQueue`, task success, task failure with any error, retry timer firing,
clock advance) has `0 <= activeRequests <= maxConcurrentRequests`, and
`maxConcurrentRequests` is still the constructor's argument. -/
theorem capacity_invariant (maxConcurrent now0 : Int) (evs : List Event)
    (h : 0 ≤ maxConcurrent) :
    0 ≤ (run (Sys.init maxConcurrent now0) evs).m.activeRequests ∧
      (run (Sys.init maxConcurrent now0) evs).m.activeRequests ≤
        (run (Sys.init maxConcurrent now0) evs).m.maxConcurrentRequests ∧
      (run (Sys.init maxConcurrent now0) evs).m.maxConcurrentRequests = maxConcurrent := by
  obtain ⟨ha, _, hc, hd⟩ := run_serial evs _ (init_serial maxConcurrent now0)
  have hm := run_maxConcurrentRequests evs (Sys.init maxConcurrent now0)
  have hm0 : (Sys.init maxConcurrent now0).m.maxConcurrentRequests = maxConcurrent := rfl
  rw [hm0] at hm
  refine ⟨by rw [ha]; exact Int.natCast_nonneg _, ?_, hm⟩
  rw [ha]
  by_cases he : (run (Sys.init maxConcurrent now0) evs).executing = []
  · rw [he, hm]
    exact h
  · have h1 := hd he
    have : ((run (Sys.init maxConcurrent now0) evs).executing.length : Int) ≤ 1 := by
      exact_mod_cast hc
    omega

theorem capacity_invariant_witness :
    (0 : Int) ≤ 2 ∧
      (run (Sys.init 2 0)
        [.addRequest 0 false 0 "a", .addRequest 1 true 0 "b", .tick 10,
          .taskFailure 0 { response := some 429 } 500, .tick 4000,
          .timerFire 0 "c"]).m.activeRequests ≤
        (run (Sys.init 2 0)
          [.addRequest 0 false 0 "a", .addRequest 1 true 0 "b", .tick 10,
            .taskFailure 0 { response := some 429 } 500, .tick 4000,
            .timerFire 0 "c"]).m.maxConcurrentRequests :=
  ⟨by decide, (capacity_invariant 2 0 _ (by decide)).2.1⟩

/-- C7. Cooldown bounds: starting from the constructor's state
(`cooldownMs = 3000`), after any sequence of `updateCooldownOnFailure` and
`updateSuccessMetrics` calls at any times, and likewise after any sequence of
events of the whole manager, `1000 <= cooldownMs <= 30000` (over the
rationals). -/
theorem cooldown_bounds (maxConcurrent : Int) :
    (∀ ops : List CooldownOp,
        1000 ≤ (ops.foldl applyOp (init maxConcurrent)).cooldownMs ∧
        (ops.foldl applyOp (init maxConcurrent)).cooldownMs ≤ 30000) ∧
      (∀ (now0 : Int) (evs : List Event),
        1000 ≤ (run (Sys.init maxConcurrent now0) evs).m.cooldownMs ∧
        (run (Sys.init maxConcurrent now0) evs).m.cooldownMs ≤ 30000) := by
  have h0 : 1000 ≤ (init maxConcurrent).cooldownMs ∧ (init maxConcurrent).cooldownMs ≤ 30000 := by
    simp only [init]
    norm_num
  exact ⟨fun ops => applyOp_bounds ops _ h0, fun now0 evs => run_bounds evs _ h0⟩

/-! ## Cooldown gate -/

theorem isInCooldown_enqueue (now : Int) (r : Request) (priority : Bool) (m : Manager) :
    isInCooldown now (enqueue r priority m) = isInCooldown now m := by
  cases priority <;> rfl

theorem processQueue_cooldown (s : Sys) (h : isInCooldown s.now s.m = true) :
    processQueue s = s := by
  unfold processQueue
  rw [h, Bool.or_true, if_pos rfl]

theorem addRequest_cooldown (fn : Nat) (priority : Bool) (metadata : Nat) (id : String)
    (s : Sys) (h : isInCooldown s.now s.m = true) :
    addRequest fn priority metadata id s =
      { s with m := enqueue (mkRequest s.now fn metadata id) priority s.m } := by
  unfold addRequest
  apply processQueue_cooldown
  show isInCooldown s.now (enqueue _ priority s.m) = true
  rw [isInCooldown_enqueue, h]

/-- C6. Cooldown blocks all dispatch. The manager is in cooldown exactly when
`failureCount > 0` and `now - lastFailureTime < cooldownMs`; in any state that
is in cooldown, `processQueue` changes nothing, `addRequest` only inserts the
new request into its queue, and a firing retry timer only inserts its request
at the front of the high priority queue: `activeRequests` and the executing
requests are unchanged and no request leaves a queue, whatever the free
capacity and the queue contents. -/
theorem cooldown_blocks_dispatch (s : Sys) :
    (isInCooldown s.now s.m = true ↔
        s.m.failureCount > 0 ∧ ((s.now - s.m.lastFailureTime : Int) : ℚ) < s.m.cooldownMs) ∧
      (isInCooldown s.now s.m = true →
        processQueue s = s ∧
        (∀ (fn : Nat) (priority : Bool) (metadata : Nat) (id : String),
          (addRequest fn priority metadata id s).m.activeRequests = s.m.activeRequests ∧
          (addRequest fn priority metadata id s).executing = s.executing ∧
          (addRequest fn priority metadata id s).m.highPriorityQueue =
            (if priority then [mkRequest s.now fn metadata id] else []) ++
              s.m.highPriorityQueue ∧
          (addRequest fn priority metadata id s).m.normalQueue =
            s.m.normalQueue ++ (if priority then [] else [mkRequest s.now fn metadata id])) ∧
        (∀ (i : Nat) (id : String),
          (fireTimer i id s).m.activeRequests = s.m.activeRequests ∧
          (fireTimer i id s).executing = s.executing ∧
          (∃ l, (fireTimer i id s).m.highPriorityQueue = l ++ s.m.highPriorityQueue) ∧
          (fireTimer i id s).m.normalQueue = s.m.normalQueue)) := by
  refine ⟨?_, ?_⟩
  · simp [isInCooldown]
  · intro h
    refine ⟨processQueue_cooldown s h, ?_, ?_⟩
    · intro fn priority metadata id
      rw [addRequest_cooldown fn priority metadata id s h]
      cases priority <;> simp [enqueue]
    · intro i id
      unfold fireTimer
      cases s.timers.get? i with
      | none => exact ⟨rfl, rfl, ⟨[], rfl⟩, rfl⟩
      | some t =>
        simp only
        split
        · rw [addRequest_cooldown t.fn true t.metadata id
            { s with timers := s.timers.eraseIdx i } h]
          exact ⟨rfl, rfl, ⟨[mkRequest s.now t.fn t.metadata id], rfl⟩, rfl⟩
        · exact ⟨rfl, rfl, ⟨[], rfl⟩, rfl⟩

theorem cooldown_blocks_dispatch_witness :
    isInCooldown 100
        (run (Sys.init 3 0)
          [.addRequest 0 false 0 "x", .addRequest 1 false 0 "y", .tick 100,
            .taskFailure 0 { response := some 429 } 0]).m = true ∧
      (run (Sys.init 3 0)
          [.addRequest 0 false 0 "x", .addRequest 1 false 0 "y", .tick 100,
            .taskFailure 0 { response := some 429 } 0]).m.activeRequests = 0 ∧
      (run (Sys.init 3 0)
          [.addRequest 0 false 0 "x", .addRequest 1 false 0 "y", .tick 100,
            .taskFailure 0 { response := some 429 } 0]).m.normalQueue = [mkRequest 0 1 0 "y"] ∧
      processQueue (run (Sys.init 3 0)
          [.addRequest 0 false 0 "x", .addRequest 1 false 0 "y", .tick 100,
            .taskFailure 0 { response := some 429 } 0]) =
        run (Sys.init 3 0)
          [.addRequest 0 false 0 "x", .addRequest 1 false 0 "y", .tick 100,
            .taskFailure 0 { response := some 429 } 0] := by
  have hs : run (Sys.init 3 0)
      [.addRequest 0 false 0 "x", .addRequest 1 false 0 "y", .tick 100,
        .taskFailure 0 { response := some 429 } 0] =
      { m := { init 3 with normalQueue := [mkRequest 0 1 0 "y"], totalFailed := 1,
                           failureCount := 1, lastFailureTime := 100 }
        now := 100
        executing := []
        timers := [{ due := 3100, fn := 0, metadata := 0 }] } := by
    simp [run, step, Sys.init, init, addRequest, processQueue, loopHead, canProcessMore,
      isInCooldown, getNextRequest_eq, agedOf, freshOf, isAged, enqueue, mkRequest,
      resumeFailure, isRateLimit, handleRateLimitError, updateCooldownOnFailure,
      calculateBackoffTime]
    norm_num
  have hc : isInCooldown 100
      (run (Sys.init 3 0)
        [.addRequest 0 false 0 "x", .addRequest 1 false 0 "y", .tick 100,
          .taskFailure 0 { response := some 429 } 0]).m = true := by
    rw [hs]
    simp [isInCooldown, init]
  have hnow : (run (Sys.init 3 0)
      [.addRequest 0 false 0 "x", .addRequest 1 false 0 "y", .tick 100,
        .taskFailure 0 { response := some 429 } 0]).now = 100 := by
    rw [hs]
  refine ⟨hc, by rw [hs]; rfl, by rw [hs], ?_⟩
  exact ((cooldown_blocks_dispatch _).2 (by rw [hnow]; exact hc)).1

/-! ## Dispatch of a burst of submissions -/

theorem addRequest_processing (fn : Nat) (priority : Bool) (metadata : Nat) (id : String)
    (s : Sys) (h : s.m.isProcessing = true) :
    addRequest fn priority metadata id s =
      { s with m := enqueue (mkRequest s.now fn metadata id) priority s.m } := by
  unfold addRequest processQueue
  have : (enqueue (mkRequest s.now fn metadata id) priority s.m).isProcessing = true := by
    cases priority <;> exact h
  simp only [this, Bool.true_or, if_true]

theorem run_normal_while_processing (rest : List (Nat × Nat × String)) (s : Sys)
    (h : s.m.isProcessing = true) :
    run s (rest.map (fun q => Event.addRequest q.1 false q.2.1 q.2.2)) =
      { s with m := { s.m with normalQueue :=
          s.m.normalQueue ++ rest.map (fun q => mkRequest s.now q.1 q.2.1 q.2.2) } } := by
  induction rest generalizing s with
  | nil => simp [run]
  | cons q rest ih =>
    simp only [List.map_cons, run, List.foldl_cons, step]
    rw [addRequest_processing _ _ _ _ _ h]
    have := ih { s with m := enqueue (mkRequest s.now q.1 q.2.1 q.2.2) false s.m } h
    simp only [run] at this
    rw [this]
    simp [enqueue]

theorem first_submission_dispatched (maxConcurrent now0 : Int) (h : 1 ≤ maxConcurrent)
    (fn metadata : Nat) (id : String) :
    addRequest fn false metadata id (Sys.init maxConcurrent now0) =
      { m := { init maxConcurrent with activeRequests := 1, isProcessing := true }
        now := now0
        executing := [{ mkRequest now0 fn metadata id with startedAt := some now0 }]
        timers := [] } := by
  have hlt : (0 : Int) < maxConcurrent := by omega
  simp [Sys.init, init, addRequest, processQueue, loopHead, canProcessMore,
    isInCooldown, getNextRequest_eq, agedOf, freshOf, isAged, enqueue, mkRequest, hlt]

/-- On a fresh manager with `maxConcurrent >= 1`, after any number `n + 1` of
normal submissions at one clock value, with no request settled, one request
is executing and the other `n` wait in the normal queue in submission order. -/
theorem normal_submissions_dispatch_one (maxConcurrent now0 : Int) (h : 1 ≤ maxConcurrent)
    (fn metadata : Nat) (id : String) (rest : List (Nat × Nat × String)) :
    (run (Sys.init maxConcurrent now0)
        (.addRequest fn false metadata id ::
          rest.map (fun q => Event.addRequest q.1 false q.2.1 q.2.2))).m.activeRequests = 1 ∧
      (run (Sys.init maxConcurrent now0)
        (.addRequest fn false metadata id ::
          rest.map (fun q => Event.addRequest q.1 false q.2.1 q.2.2))).executing =
        [{ mkRequest now0 fn metadata id with startedAt := some now0 }] ∧
      (run (Sys.init maxConcurrent now0)
        (.addRequest fn false metadata id ::
          rest.map (fun q => Event.addRequest q.1 false q.2.1 q.2.2))).m.normalQueue =
        rest.map (fun q => mkRequest now0 q.1 q.2.1 q.2.2) := by
  have e : run (Sys.init maxConcurrent now0)
      (.addRequest fn false metadata id ::
        rest.map (fun q => Event.addRequest q.1 false q.2.1 q.2.2)) =
      run (addRequest fn false metadata id (Sys.init maxConcurrent now0))
        (rest.map (fun q => Event.addRequest q.1 false q.2.1 q.2.2)) := rfl
  rw [e, first_submission_dispatched maxConcurrent now0 h, run_normal_while_processing _ _ rfl]
  exact ⟨rfl, rfl, by simp [init]⟩

/-- C2, on the code. With `maxConcurrent = 2`, five normal submissions on a
fresh manager, none settled: `processQueue` is suspended at the `await` of the
first request with `isProcessing` set, so one request is executing
(`activeRequests = 1`, not `min(5, 2) = 2`) and four are queued, not three. -/
theorem five_submissions_one_executing :
    (run (Sys.init 2 0)
        [.addRequest 0 false 0 "a", .addRequest 1 false 0 "b", .addRequest 2 false 0 "c",
          .addRequest 3 false 0 "d", .addRequest 4 false 0 "e"]).m.activeRequests = 1 ∧
      (run (Sys.init 2 0)
        [.addRequest 0 false 0 "a", .addRequest 1 false 0 "b", .addRequest 2 false 0 "c",
          .addRequest 3 false 0 "d", .addRequest 4 false 0 "e"]).executing =
        [{ mkRequest 0 0 0 "a" with startedAt := some 0 }] ∧
      (run (Sys.init 2 0)
        [.addRequest 0 false 0 "a", .addRequest 1 false 0 "b", .addRequest 2 false 0 "c",
          .addRequest 3 false 0 "d", .addRequest 4 false 0 "e"]).m.normalQueue =
        [mkRequest 0 1 0 "b", mkRequest 0 2 0 "c", mkRequest 0 3 0 "d", mkRequest 0 4 0 "e"] ∧
      (run (Sys.init 2 0)
        [.addRequest 0 false 0 "a", .addRequest 1 false 0 "b", .addRequest 2 false 0 "c",
          .addRequest 3 false 0 "d", .addRequest 4 false 0 "e"]).m.activeRequests ≠
        min 5 2 := by
  have h := normal_submissions_dispatch_one 2 0 (by decide) 0 0 "a"
    [(1, 0, "b"), (2, 0, "c"), (3, 0, "d"), (4, 0, "e")]
  simp only [List.map_cons, List.map_nil] at h
  refine ⟨h.1, h.2.1, h.2.2, ?_⟩
  rw [h.1]
  decide

/-! ## Request ids -/

theorem residentIds_dispatchTo (s : Sys) (r : Request) (hp nq : List Request)
    (hperm : List.Perm (r :: (hp ++ nq)) (s.m.highPriorityQueue ++ s.m.normalQueue)) :
    List.Perm (residentIds (dispatchTo s r hp nq)) (residentIds s) := by
  have h1 := (hperm.map Request.id).append_right (s.executing.map Request.id)
  have e1 : residentIds s =
      (s.m.highPriorityQueue ++ s.m.normalQueue).map Request.id ++
        s.executing.map Request.id := by
    simp [residentIds]
  have e2 : residentIds (dispatchTo s r hp nq) =
      ((hp ++ nq).map Request.id ++ s.executing.map Request.id) ++ [r.id] := by
    simp [residentIds, dispatchTo]
  rw [e1, e2]
  refine List.Perm.trans ?_ h1
  rw [List.map_cons, List.cons_append]
  exact List.perm_append_singleton _ _

theorem loopHead_ids (s : Sys) : List.Perm (residentIds (loopHead s)) (residentIds s) := by
  rcases loopHead_cases s with h | ⟨_, r, hp, nq, hperm, h⟩
  · rw [h]
    exact List.Perm.refl _
  · rw [h]
    exact residentIds_dispatchTo s r hp nq hperm

theorem processQueue_ids (s : Sys) :
    List.Perm (residentIds (processQueue s)) (residentIds s) := by
  rcases processQueue_cases s with h | ⟨_, _, h⟩
  · rw [h]
  · rw [h]
    exact loopHead_ids _

theorem addRequest_ids (fn : Nat) (priority : Bool) (metadata : Nat) (id : String) (s : Sys) :
    List.Perm (residentIds (addRequest fn priority metadata id s)) (id :: residentIds s) := by
  unfold addRequest
  refine (processQueue_ids _).trans ?_
  cases priority
  · have e1 : residentIds
        { s with m := enqueue (mkRequest s.now fn metadata id) false s.m } =
        (s.m.highPriorityQueue ++ s.m.normalQueue).map Request.id ++
          id :: s.executing.map Request.id := by
      simp [residentIds, enqueue, mkRequest]
    have e2 : id :: residentIds s =
        id :: ((s.m.highPriorityQueue ++ s.m.normalQueue).map Request.id ++
          s.executing.map Request.id) := by
      simp [residentIds]
    rw [e1, e2]
    exact List.perm_middle
  · simp [residentIds, enqueue, mkRequest]

theorem nodup_of_queues_eq (s t : Sys) (i : Nat)
    (h1 : t.m.highPriorityQueue = s.m.highPriorityQueue)
    (h2 : t.m.normalQueue = s.m.normalQueue) (h3 : t.executing = s.executing.eraseIdx i)
    (h : (residentIds s).Nodup) : (residentIds t).Nodup := by
  unfold residentIds at *
  rw [h1, h2, h3]
  refine List.Nodup.sublist ?_ h
  apply List.Sublist.map
  exact List.Sublist.append (List.Sublist.refl _) (List.eraseIdx_sublist _ _)

theorem resumeSuccess_nodup (i : Nat) (p : ℚ) (s : Sys) (h : (residentIds s).Nodup) :
    (residentIds (resumeSuccess i p s)).Nodup := by
  unfold resumeSuccess
  cases s.executing.get? i with
  | none => exact h
  | some r =>
    simp only
    refine (loopHead_ids _).nodup_iff.mpr ?_
    have hf := updateSuccessMetrics_frame s.now p s.m
    exact nodup_of_queues_eq s _ i hf.2.2.2.1 hf.2.2.2.2 rfl h

theorem resumeFailure_nodup (i : Nat) (e : JsError) (jitter : ℚ) (s : Sys)
    (h : (residentIds s).Nodup) : (residentIds (resumeFailure i e jitter s)).Nodup := by
  unfold resumeFailure
  cases s.executing.get? i with
  | none => exact h
  | some r =>
    refine (loopHead_ids _).nodup_iff.mpr ?_
    cases hrl : isRateLimit e
    · simp only [Bool.false_eq_true, if_false]
      exact nodup_of_queues_eq s _ i rfl rfl rfl h
    · simp only [if_true]
      have hf := updateCooldownOnFailure_frame s.now
        { s.m with totalFailed := s.m.totalFailed + 1 }
      exact nodup_of_queues_eq s _ i hf.2.2.2.1 hf.2.2.2.2 rfl h

theorem addRequest_nodup (fn : Nat) (priority : Bool) (metadata : Nat) (id : String) (s : Sys)
    (hid : id ∉ residentIds s) (h : (residentIds s).Nodup) :
    (residentIds (addRequest fn priority metadata id s)).Nodup :=
  (addRequest_ids fn priority metadata id s).nodup_iff.mpr (List.nodup_cons.mpr ⟨hid, h⟩)

theorem step_nodup (s : Sys) (ev : Event) (hf : drawsFreshId s ev)
    (h : (residentIds s).Nodup) : (residentIds (step s ev)).Nodup := by
  cases ev with
  | addRequest fn priority metadata id => exact addRequest_nodup fn priority metadata id s hf h
  | processQueue => exact (processQueue_ids s).nodup_iff.mpr h
  | taskSuccess i p => exact resumeSuccess_nodup i p s h
  | taskFailure i e jitter => exact resumeFailure_nodup i e jitter s h
  | timerFire i id =>
    simp only [step, fireTimer]
    cases s.timers.get? i with
    | none => exact h
    | some t =>
      simp only
      split
      · exact addRequest_nodup t.fn true t.metadata id
          { s with timers := s.timers.eraseIdx i } hf h
      · exact h
  | tick d => exact h

theorem run_nodup (evs : List Event) (s : Sys) (hf : drawsFresh s evs)
    (h : (residentIds s).Nodup) : (residentIds (run s evs)).Nodup := by
  induction evs generalizing s with
  | nil => exact h
  | cons ev evs ih => exact ih (step s ev) hf.2 (step_nodup s ev hf.1 h)

/-- C10, as stated, fails. The id is whatever `Math.random()` yields and
`addRequest` compares it with nothing: three submissions that draw the same
string leave one request executing and two queued, all three with that id. -/
theorem equal_draws_share_an_id :
    (run (Sys.init 3 0)
        [.addRequest 0 false 0 "k", .addRequest 1 false 0 "k",
          .addRequest 2 true 0 "k"]).executing.map Request.id = ["k"] ∧
      (run (Sys.init 3 0)
        [.addRequest 0 false 0 "k", .addRequest 1 false 0 "k",
          .addRequest 2 true 0 "k"]).m.normalQueue.map Request.id = ["k"] ∧
      (run (Sys.init 3 0)
        [.addRequest 0 false 0 "k", .addRequest 1 false 0 "k",
          .addRequest 2 true 0 "k"]).m.highPriorityQueue.map Request.id = ["k"] ∧
      ¬ (residentIds (run (Sys.init 3 0)
        [.addRequest 0 false 0 "k", .addRequest 1 false 0 "k",
          .addRequest 2 true 0 "k"])).Nodup := by
  have hs : run (Sys.init 3 0)
      [.addRequest 0 false 0 "k", .addRequest 1 false 0 "k", .addRequest 2 true 0 "k"] =
      { m := { init 3 with activeRequests := 1, isProcessing := true,
                           normalQueue := [mkRequest 0 1 0 "k"],
                           highPriorityQueue := [mkRequest 0 2 0 "k"] }
        now := 0
        executing := [{ mkRequest 0 0 0 "k" with startedAt := some 0 }]
        timers := [] } := by
    simp [run, step, Sys.init, init, addRequest, processQueue, loopHead, canProcessMore,
      isInCooldown, getNextRequest_eq, agedOf, freshOf, isAged, enqueue, mkRequest]
  rw [hs]
  simp [residentIds, mkRequest]

/-- C10, amended. When every id drawn by `addRequest` (from a caller or from
a retry timer) differs from the ids of the requests then queued or executing,
then in every state reached from the constructor's state the ids of the
requests in `highPriorityQueue`, `normalQueue` and execution are pairwise
distinct: no id occurs twice in a queue, in both queues, or in a queue and in
execution. -/
theorem resident_ids_distinct (maxConcurrent now0 : Int) (evs : List Event)
    (hf : drawsFresh (Sys.init maxConcurrent now0) evs) :
    ((run (Sys.init maxConcurrent now0) evs).m.highPriorityQueue.map Request.id ++
      (run (Sys.init maxConcurrent now0) evs).m.normalQueue.map Request.id ++
      (run (Sys.init maxConcurrent now0) evs).executing.map Request.id).Nodup := by
  have h := run_nodup evs (Sys.init maxConcurrent now0) hf (by simp [residentIds, Sys.init, init])
  simpa [residentIds] using h

theorem resident_ids_distinct_witness :
    drawsFresh (Sys.init 3 0)
        [.addRequest 0 false 0 "a", .addRequest 1 false 0 "b", .addRequest 2 true 0 "c"] ∧
      ((run (Sys.init 3 0)
          [.addRequest 0 false 0 "a", .addRequest 1 false 0 "b",
            .addRequest 2 true 0 "c"]).m.highPriorityQueue.map Request.id ++
        (run (Sys.init 3 0)
          [.addRequest 0 false 0 "a", .addRequest 1 false 0 "b",
            .addRequest 2 true 0 "c"]).m.normalQueue.map Request.id ++
        (run (Sys.init 3 0)
          [.addRequest 0 false 0 "a", .addRequest 1 false 0 "b",
            .addRequest 2 true 0 "c"]).executing.map Request.id).Nodup := by
  have hf : drawsFresh (Sys.init 3 0)
      [.addRequest 0 false 0 "a", .addRequest 1 false 0 "b", .addRequest 2 true 0 "c"] := by
    simp [drawsFresh, drawsFreshId, residentIds, step, Sys.init, init, addRequest, processQueue,
      loopHead, canProcessMore, isInCooldown, getNextRequest_eq, agedOf, freshOf, isAged,
      enqueue, mkRequest]
  exact ⟨hf, resident_ids_distinct 3 0 _ hf⟩

/-! ## Order within a queue -/

theorem freshOf_split (m : Manager) (now : Int) (pre mid post : List Request) (r1 r2 : Request)
    (hq : m.normalQueue = pre ++ r1 :: (mid ++ r2 :: post))
    (h1 : now - r1.addedAt ≤ m.requestTimeoutMs) (h2 : now - r2.addedAt ≤ m.requestTimeoutMs) :
    freshOf now m =
      pre.filter (fun r => !isAged now m.requestTimeoutMs r) ++
        r1 :: (mid.filter (fun r => !isAged now m.requestTimeoutMs r) ++
          r2 :: post.filter (fun r => !isAged now m.requestTimeoutMs r)) := by
  have a1 : isAged now m.requestTimeoutMs r1 = false := by
    simp only [isAged, decide_eq_false_iff_not]
    omega
  have a2 : isAged now m.requestTimeoutMs r2 = false := by
    simp only [isAged, decide_eq_false_iff_not]
    omega
  unfold freshOf
  rw [hq]
  simp [List.filter_append, List.filter_cons, a1, a2]

/-- C11, as stated, fails for the high priority queue. Two priority requests
are submitted behind a running request, `p` at time 0 and `q` at time 1; when
the running request completes, the later one, `q`, is dispatched and `p` is
still queued. -/
theorem later_priority_submission_first :
    (run (Sys.init 3 0)
        [.addRequest 0 false 0 "x", .addRequest 1 true 0 "p", .tick 1,
          .addRequest 2 true 0 "q"]).m.highPriorityQueue =
        [mkRequest 1 2 0 "q", mkRequest 0 1 0 "p"] ∧
      (run (Sys.init 3 0)
        [.addRequest 0 false 0 "x", .addRequest 1 true 0 "p", .tick 1,
          .addRequest 2 true 0 "q", .taskSuccess 0 100]).executing =
        [{ mkRequest 1 2 0 "q" with startedAt := some 1 }] ∧
      (run (Sys.init 3 0)
        [.addRequest 0 false 0 "x", .addRequest 1 true 0 "p", .tick 1,
          .addRequest 2 true 0 "q", .taskSuccess 0 100]).m.highPriorityQueue =
        [mkRequest 0 1 0 "p"] := by
  simp [run, step, Sys.init, init, addRequest, processQueue, loopHead, canProcessMore,
    isInCooldown, getNextRequest_eq, agedOf, freshOf, isAged, enqueue, mkRequest, resumeSuccess,
    updateSuccessMetrics]

/-- C11, amended. `getNextRequest` returns the head of
`highPriorityQueue ++ aged ++ fresh` (the high priority queue, then the
requests the sweep promotes, then the rest of the normal queue) and leaves its
tail in the queues. The normal queue is first-in-first-out: a normal
submission joins the tail, and when `r1` is queued ahead of `r2` in the normal
queue and neither is aged, `getNextRequest` returns `r1` when nothing is ahead
of it, and otherwise returns the first request ahead of `r1` and leaves both
queued, `r1` still ahead of `r2`. The high priority queue is
last-in-first-out among priority submissions: a priority submission joins the
front, and when `p2` is ahead of `p1` in the high priority queue,
`getNextRequest` returns `p2` when it is at the front, and otherwise returns
the front and leaves both queued, `p2` still ahead of `p1`. -/
theorem queue_order (m : Manager) (now : Int) :
    (∀ r, (enqueue r false m).normalQueue = m.normalQueue ++ [r]) ∧
      (∀ r, (enqueue r true m).highPriorityQueue = r :: m.highPriorityQueue) ∧
      (getNextRequest now m).1 =
        (m.highPriorityQueue ++ agedOf now m ++ freshOf now m).head? ∧
      (getNextRequest now m).2.highPriorityQueue ++ (getNextRequest now m).2.normalQueue =
        (m.highPriorityQueue ++ agedOf now m ++ freshOf now m).tail ∧
      (∀ (pre mid post : List Request) (r1 r2 : Request),
        m.normalQueue = pre ++ r1 :: (mid ++ r2 :: post) →
        now - r1.addedAt ≤ m.requestTimeoutMs → now - r2.addedAt ≤ m.requestTimeoutMs →
        ((getNextRequest now m).1 = some r1 ∧
            m.highPriorityQueue ++ agedOf now m ++
              pre.filter (fun r => !isAged now m.requestTimeoutMs r) = [] ∧
            (getNextRequest now m).2.highPriorityQueue = [] ∧
            (getNextRequest now m).2.normalQueue =
              mid.filter (fun r => !isAged now m.requestTimeoutMs r) ++
                r2 :: post.filter (fun r => !isAged now m.requestTimeoutMs r)) ∨
          ∃ a pre2,
            (getNextRequest now m).1 = some a ∧
            m.highPriorityQueue ++ agedOf now m ++
                pre.filter (fun r => !isAged now m.requestTimeoutMs r) =
              a :: ((getNextRequest now m).2.highPriorityQueue ++ pre2) ∧
            (getNextRequest now m).2.normalQueue =
              pre2 ++ r1 :: (mid.filter (fun r => !isAged now m.requestTimeoutMs r) ++
                r2 :: post.filter (fun r => !isAged now m.requestTimeoutMs r))) ∧
      (∀ (pre mid post : List Request) (p2 p1 : Request),
        m.highPriorityQueue = pre ++ p2 :: (mid ++ p1 :: post) →
        (pre = [] ∧ (getNextRequest now m).1 = some p2 ∧
            (getNextRequest now m).2.highPriorityQueue =
              mid ++ p1 :: (post ++ agedOf now m) ∧
            (getNextRequest now m).2.normalQueue = freshOf now m) ∨
          ∃ a pre2,
            pre = a :: pre2 ∧ (getNextRequest now m).1 = some a ∧
            (getNextRequest now m).2.highPriorityQueue =
              pre2 ++ p2 :: (mid ++ p1 :: (post ++ agedOf now m)) ∧
            (getNextRequest now m).2.normalQueue = freshOf now m) := by
  refine ⟨fun r => rfl, fun r => rfl, ?_, ?_, ?_, ?_⟩
  · rw [getNextRequest_eq]
    cases hh : m.highPriorityQueue ++ agedOf now m with
    | cons a t => rfl
    | nil =>
      cases hf : freshOf now m with
      | nil => rfl
      | cons a t => rfl
  · rw [getNextRequest_eq]
    cases hh : m.highPriorityQueue ++ agedOf now m with
    | cons a t => rfl
    | nil =>
      cases hf : freshOf now m with
      | nil => rfl
      | cons a t => rfl
  · intro pre mid post r1 r2 hq h1 h2
    have hf := freshOf_split m now pre mid post r1 r2 hq h1 h2
    rw [getNextRequest_eq]
    cases hh : m.highPriorityQueue ++ agedOf now m with
    | cons a t =>
      right
      exact ⟨a, pre.filter (fun r => !isAged now m.requestTimeoutMs r), rfl, rfl, hf⟩
    | nil =>
      cases hp : pre.filter (fun r => !isAged now m.requestTimeoutMs r) with
      | nil =>
        left
        rw [hp, List.nil_append] at hf
        rw [hf]
        exact ⟨rfl, rfl, rfl, rfl⟩
      | cons a t =>
        right
        rw [hp, List.cons_append] at hf
        rw [hf]
        exact ⟨a, t, rfl, rfl, rfl⟩
  · intro pre mid post p2 p1 hq
    rw [getNextRequest_eq, hq]
    cases pre with
    | nil =>
      left
      simp
    | cons a t =>
      right
      exact ⟨a, t, rfl, by simp⟩

theorem queue_order_witness :
    ((getNextRequest 10
        { init 3 with normalQueue := [mkRequest 0 1 0 "a", mkRequest 5 2 0 "b"] }).1 =
        some (mkRequest 0 1 0 "a") ∧
      (getNextRequest 10
        { init 3 with normalQueue := [mkRequest 0 1 0 "a", mkRequest 5 2 0 "b"] }).2.normalQueue =
        [mkRequest 5 2 0 "b"]) ∧
      ((getNextRequest 10
        { init 3 with highPriorityQueue := [mkRequest 5 2 0 "q", mkRequest 0 1 0 "p"] }).1 =
        some (mkRequest 5 2 0 "q") ∧
      (getNextRequest 10
        { init 3 with
          highPriorityQueue := [mkRequest 5 2 0 "q", mkRequest 0 1 0 "p"] }).2.highPriorityQueue =
        [mkRequest 0 1 0 "p"]) := by
  refine ⟨?_, ?_⟩
  · have h := (queue_order
      { init 3 with normalQueue := [mkRequest 0 1 0 "a", mkRequest 5 2 0 "b"] }
      10).2.2.2.2.1 [] [] [] (mkRequest 0 1 0 "a") (mkRequest 5 2 0 "b") rfl
      (by simp [mkRequest, init]) (by simp [mkRequest, init])
    rcases h with h | ⟨a, pre2, _, h, _⟩
    · exact ⟨h.1, by simpa using h.2.2.2⟩
    · exfalso
      simp [agedOf, isAged, mkRequest, init] at h
  · have h := (queue_order
      { init 3 with highPriorityQueue := [mkRequest 5 2 0 "q", mkRequest 0 1 0 "p"] }
      10).2.2.2.2.2 [] [] [] (mkRequest 5 2 0 "q") (mkRequest 0 1 0 "p") rfl
    rcases h with h | ⟨a, pre2, h, _⟩
    · exact ⟨h.2.1, by simpa [agedOf, init] using h.2.2.1⟩
    · exact absurd h (by simp)

/-! ## Queue position -/

theorem findIndexFrom_first (requestId : String) (l : List Request) (off : Int) (j : Nat)
    (h : IsFirstIndex requestId l j) :
    findIndexFrom (fun r => r.id == requestId) l off = off + j := by
  induction l generalizing off j with
  | nil =>
    have := h.1
    simp at this
  | cons r rest ih =>
    cases j with
    | zero =>
      have h1 : r.id = requestId := by simpa using h.1
      simp [findIndexFrom, h1]
    | succ k =>
      have h0 : r.id ≠ requestId := by
        have := h.2 0 (Nat.succ_pos k)
        simpa using this
      have hk : IsFirstIndex requestId rest k := by
        refine ⟨by simpa using h.1, ?_⟩
        intro i hi
        have := h.2 (i + 1) (Nat.succ_lt_succ hi)
        simpa using this
      have := ih (off + 1) k hk
      simp only [findIndexFrom, beq_iff_eq, h0, if_false, this]
      push_cast
      ring

theorem findIndexFrom_absent (requestId : String) (l : List Request) (off : Int)
    (h : requestId ∉ l.map Request.id) :
    findIndexFrom (fun r => r.id == requestId) l off = -1 := by
  induction l generalizing off with
  | nil => rfl
  | cons r rest ih =>
    have h0 : r.id ≠ requestId := by
      intro e
      exact h (by simp [e])
    have h1 : requestId ∉ rest.map Request.id := by
      intro e
      exact h (by simp only [List.map_cons]; exact List.mem_cons_of_mem _ e)
    simp only [findIndexFrom, beq_iff_eq, h0, if_false]
    exact ih (off + 1) h1

theorem findIndexFrom_present (requestId : String) (l : List Request) (off : Int)
    (h : requestId ∈ l.map Request.id) :
    off ≤ findIndexFrom (fun r => r.id == requestId) l off ∧
      findIndexFrom (fun r => r.id == requestId) l off < off + l.length := by
  induction l generalizing off with
  | nil => simp at h
  | cons r rest ih =>
    by_cases h0 : r.id = requestId
    · simp only [findIndexFrom, beq_iff_eq, h0, if_true, List.length_cons]
      push_cast
      omega
    · have h1 : requestId ∈ rest.map Request.id := by
        simp only [List.map_cons, List.mem_cons] at h
        rcases h with e | e
        · exact absurd e.symm h0
        · exact e
      have := ih (off + 1) h1
      simp only [findIndexFrom, beq_iff_eq, h0, if_false, List.length_cons]
      push_cast
      omega

theorem findIndex_nonneg_iff (requestId : String) (l : List Request) :
    findIndex (fun r => r.id == requestId) l ≥ 0 ↔ requestId ∈ l.map Request.id := by
  unfold findIndex
  constructor
  · intro h
    by_contra hn
    rw [findIndexFrom_absent requestId l 0 hn] at h
    omega
  · intro h
    exact (findIndexFrom_present requestId l 0 h).1

/-- C12. Queue position: `getQueuePosition` returns position `i + 1` in queue
`highPriority` when `i` is the first index of `highPriorityQueue` holding the
id; otherwise position `j + 1 + highPriorityQueue.length` in queue `normal`
when `j` is the first index of `normalQueue` holding it; it returns `null`
exactly when the id is in neither queue; and every returned position lies
between 1 and the total number of queued requests. -/
theorem getQueuePosition_spec (requestId : String) (m : Manager) :
    (∀ i, IsFirstIndex requestId m.highPriorityQueue i →
        getQueuePosition requestId m =
          some { position := (i : Int) + 1, queue := "highPriority" }) ∧
      (requestId ∉ m.highPriorityQueue.map Request.id →
        ∀ j, IsFirstIndex requestId m.normalQueue j →
          getQueuePosition requestId m =
            some { position := (j : Int) + 1 + m.highPriorityQueue.length, queue := "normal" }) ∧
      (getQueuePosition requestId m = none ↔
        requestId ∉ m.highPriorityQueue.map Request.id ∧
          requestId ∉ m.normalQueue.map Request.id) ∧
      (∀ q, getQueuePosition requestId m = some q →
        1 ≤ q.position ∧
          q.position ≤ (m.highPriorityQueue.length : Int) + m.normalQueue.length) := by
  refine ⟨?_, ?_, ?_, ?_⟩
  · intro i hi
    have e : findIndex (fun r => r.id == requestId) m.highPriorityQueue = i := by
      unfold findIndex
      rw [findIndexFrom_first requestId _ 0 i hi, zero_add]
    unfold getQueuePosition
    simp only [e]
    rw [if_pos (Int.natCast_nonneg i)]
  · intro hn j hj
    have e1 : findIndex (fun r => r.id == requestId) m.highPriorityQueue = -1 :=
      findIndexFrom_absent requestId _ 0 hn
    have e2 : findIndex (fun r => r.id == requestId) m.normalQueue = j := by
      unfold findIndex
      rw [findIndexFrom_first requestId _ 0 j hj, zero_add]
    unfold getQueuePosition
    simp only [e1, e2]
    rw [if_neg (by decide), if_pos (Int.natCast_nonneg j)]
  · unfold getQueuePosition
    simp only
    rw [← findIndex_nonneg_iff, ← findIndex_nonneg_iff]
    split
    · next h => simp [h]
    · next h =>
      split
      · next h2 => simp [h2]
      · next h2 => simp [h, h2]
  · intro q hq
    unfold getQueuePosition at hq
    simp only at hq
    split at hq
    · next h =>
      have hp := findIndexFrom_present requestId m.highPriorityQueue 0
        ((findIndex_nonneg_iff _ _).mp h)
      injection hq with hq
      rw [← hq]
      unfold findIndex at h ⊢
      simp only
      omega
    · next h =>
      split at hq
      · next h2 =>
        have hp := findIndexFrom_present requestId m.normalQueue 0
          ((findIndex_nonneg_iff _ _).mp h2)
        injection hq with hq
        rw [← hq]
        unfold findIndex at h2 ⊢
        simp only
        omega
      · exact absurd hq (by simp)

/-! ## Wait-time estimate -/

theorem loopHead_avgProcessingTime (s : Sys) :
    (loopHead s).m.avgProcessingTime = s.m.avgProcessingTime := by
  rcases loopHead_cases s with h | ⟨_, r, hp, nq, _, h⟩ <;> rw [h] <;> rfl

theorem processQueue_avgProcessingTime (s : Sys) :
    (processQueue s).m.avgProcessingTime = s.m.avgProcessingTime := by
  rcases processQueue_cases s with h | ⟨_, _, h⟩
  · rw [h]
  · rw [h]
    exact loopHead_avgProcessingTime _

theorem addRequest_avgProcessingTime (fn : Nat) (priority : Bool) (metadata : Nat)
    (id : String) (s : Sys) :
    (addRequest fn priority metadata id s).m.avgProcessingTime = s.m.avgProcessingTime := by
  unfold addRequest
  have h := processQueue_avgProcessingTime
    { s with m := enqueue (mkRequest s.now fn metadata id) priority s.m }
  cases priority <;> exact h

theorem updateSuccessMetrics_avgProcessingTime (now : Int) (p : ℚ) (m : Manager) :
    (updateSuccessMetrics now p m).avgProcessingTime =
      if m.avgProcessingTime ≠ 0 then 4 / 5 * m.avgProcessingTime + 1 / 5 * p else p := by
  unfold updateSuccessMetrics
  simp only
  split <;> rfl

theorem updateCooldownOnFailure_avgProcessingTime (now : Int) (m : Manager) :
    (updateCooldownOnFailure now m).avgProcessingTime = m.avgProcessingTime := by
  unfold updateCooldownOnFailure
  by_cases h : now - m.lastFailureTime > 10000 <;> simp only [h, if_true, if_false] <;>
    split <;> rfl

theorem step_avgProcessingTime_nonneg (s : Sys) (ev : Event)
    (hev : match ev with
      | .taskSuccess _ processingTime => 0 ≤ processingTime
      | _ => True)
    (h : 0 ≤ s.m.avgProcessingTime) : 0 ≤ (step s ev).m.avgProcessingTime := by
  cases ev with
  | addRequest fn priority metadata id =>
    simp only [step]
    rw [addRequest_avgProcessingTime]
    exact h
  | processQueue =>
    simp only [step]
    rw [processQueue_avgProcessingTime]
    exact h
  | taskSuccess i p =>
    simp only [step, resumeSuccess]
    cases s.executing.get? i with
    | none => exact h
    | some r =>
      simp only
      rw [loopHead_avgProcessingTime]
      show 0 ≤ (updateSuccessMetrics s.now p s.m).avgProcessingTime
      rw [updateSuccessMetrics_avgProcessingTime]
      have hp : 0 ≤ p := hev
      split
      · linarith
      · exact hp
  | taskFailure i e jitter =>
    simp only [step, resumeFailure]
    cases s.executing.get? i with
    | none => exact h
    | some r =>
      simp only
      rw [loopHead_avgProcessingTime]
      cases hrl : isRateLimit e
      · simp only [Bool.false_eq_true, if_false]
        exact h
      · simp only [if_true]
        show 0 ≤ (updateCooldownOnFailure s.now _).avgProcessingTime
        rw [updateCooldownOnFailure_avgProcessingTime]
        exact h
  | timerFire i id =>
    simp only [step, fireTimer]
    cases s.timers.get? i with
    | none => exact h
    | some t =>
      simp only
      split
      · rw [addRequest_avgProcessingTime]
        exact h
      · exact h
  | tick d => exact h

/-- In every state reached from the constructor's state by a run whose
measured processing times are non-negative, `avgProcessingTime >= 0`. -/
theorem run_avgProcessingTime_nonneg (evs : List Event) (s : Sys) (ht : nonnegTimes evs)
    (h : 0 ≤ s.m.avgProcessingTime) : 0 ≤ (run s evs).m.avgProcessingTime := by
  induction evs generalizing s with
  | nil => exact h
  | cons ev evs ih =>
    apply ih (step s ev) (fun e he => ht e (List.mem_cons_of_mem _ he))
    exact step_avgProcessingTime_nonneg s ev (ht ev (List.mem_cons_self _ _)) h

/-- C13. Wait-time estimate: `getEstimatedWaitTime` is
`activeRequests * avgProcessingTime +
(highPriorityQueue.length + normalQueue.length) * avgProcessingTime /
maxConcurrentRequests`, plus `cooldownMs` when in cooldown; and with
`avgProcessingTime >= 0` and `maxConcurrentRequests >= 1`, a state that
differs only in its queues and holds at least as many queued requests has an
estimate at least as large. -/
theorem getEstimatedWaitTime_monotone (now : Int) (m : Manager) (hp nq : List Request)
    (havg : 0 ≤ m.avgProcessingTime) (hmax : 1 ≤ m.maxConcurrentRequests)
    (hlen : m.highPriorityQueue.length + m.normalQueue.length ≤ hp.length + nq.length) :
    getEstimatedWaitTime now m =
        (m.activeRequests : ℚ) * m.avgProcessingTime +
          ((m.highPriorityQueue.length : ℚ) + (m.normalQueue.length : ℚ)) *
            m.avgProcessingTime / (m.maxConcurrentRequests : ℚ) +
          (if isInCooldown now m = true then m.cooldownMs else 0) ∧
      getEstimatedWaitTime now m ≤
        getEstimatedWaitTime now { m with highPriorityQueue := hp, normalQueue := nq } := by
  have hiso : isInCooldown now { m with highPriorityQueue := hp, normalQueue := nq } =
      isInCooldown now m := rfl
  have hpos : (0 : ℚ) < (m.maxConcurrentRequests : ℚ) := by
    have : (1 : ℚ) ≤ (m.maxConcurrentRequests : ℚ) := by exact_mod_cast hmax
    linarith
  have hcast : ((m.highPriorityQueue.length + m.normalQueue.length : ℕ) : ℚ) ≤
      ((hp.length + nq.length : ℕ) : ℚ) := by exact_mod_cast hlen
  refine ⟨?_, ?_⟩
  · simp only [getEstimatedWaitTime]
    push_cast
    rfl
  · simp only [getEstimatedWaitTime, hiso]
    have hq : ((m.highPriorityQueue.length + m.normalQueue.length : ℕ) : ℚ) *
        m.avgProcessingTime / (m.maxConcurrentRequests : ℚ) ≤
        ((hp.length + nq.length : ℕ) : ℚ) * m.avgProcessingTime /
          (m.maxConcurrentRequests : ℚ) := by
      apply div_le_div_of_nonneg_right _ (le_of_lt hpos)
      exact mul_le_mul_of_nonneg_right hcast havg
    linarith

theorem getEstimatedWaitTime_monotone_witness :
    getEstimatedWaitTime 0 { init 3 with avgProcessingTime := 120 } ≤
      getEstimatedWaitTime 0
        { init 3 with avgProcessingTime := 120, normalQueue := [mkRequest 0 1 0 "a"] } :=
  (getEstimatedWaitTime_monotone 0 { init 3 with avgProcessingTime := 120 } []
    [mkRequest 0 1 0 "a"] (by simp [init]) (by simp [init]) (by simp [init])).2

/-! ## Classification of the errors of the submitted work function -/

/-- No error thrown by `requestFunction` passes the test
`error.response && error.response.status === 429`. -/
theorem requestFunction_error_unclassified (text targetLang : String) (backend : AxiosResult)
    (e : JsError) (h : requestFunction text targetLang backend = .error e) :
    e.response = none ∧ isRateLimit e = false := by
  have he : e = { response := none } := by
    unfold requestFunction translateText at h
    split at h
    · simp at h
    · next e2 heq =>
      injection h with h
      rw [← h]
      split at heq
      · injection heq with heq
        exact heq.symm
      · split at heq
        · injection heq with heq
          exact heq.symm
        · split at heq
          · injection heq with heq
            exact heq.symm
          · simp at heq
        · injection heq with heq
          exact heq.symm
  rw [he]
  exact ⟨rfl, rfl⟩

/-- C14, on the code. The backend rejects the call with HTTP status 429;
`translateText` replaces the axios error by a fresh `Error`, so the error that
`requestFunction` rethrows has no `response`, the test of `processQueue`
fails, and the failure is handled as an ordinary one: `failureCount` and
`cooldownMs` are as before, no retry timer is set and the request is gone.
With the `response` kept, the same failure starts a failure streak and sets a
retry timer. -/
theorem backend_429_handled_as_ordinary_failure :
    requestFunction "hola" "en" (.rejected { response := some 429 }) =
        .error { response := none } ∧
      isRateLimit { response := none } = false ∧
      settle 0 (requestFunction "hola" "en" (.rejected { response := some 429 })) 50 0
          (addRequest 0 false 0 "a" (Sys.init 3 0)) =
        { m := { init 3 with totalFailed := 1 }, now := 0, executing := [], timers := [] } ∧
      settle 0 (.error { response := some 429 }) 50 0
          (addRequest 0 false 0 "a" (Sys.init 3 0)) =
        { m := { init 3 with totalFailed := 1, failureCount := 1 }
          now := 0
          executing := []
          timers := [{ due := 3000, fn := 0, metadata := 0 }] } := by
  have h1 : requestFunction "hola" "en" (.rejected { response := some 429 }) =
      .error { response := none } := by
    rfl
  refine ⟨h1, rfl, ?_, ?_⟩
  · rw [h1]
    simp [settle, Sys.init, init, addRequest, processQueue, loopHead, canProcessMore,
      isInCooldown, getNextRequest_eq, agedOf, freshOf, isAged, enqueue, mkRequest,
      resumeFailure, isRateLimit]
  · simp [settle, Sys.init, init, addRequest, processQueue, loopHead, canProcessMore,
      isInCooldown, getNextRequest_eq, agedOf, freshOf, isAged, enqueue, mkRequest,
      resumeFailure, isRateLimit, handleRateLimitError, updateCooldownOnFailure,
      calculateBackoffTime]
    norm_num

end LiveRequestManager
